import Mathlib

/-!
Verification development for the CV sorter (`src/Processors/sorterv2.py`, with the
legacy scorer from `src/Processors/old/sorterv2.py`).

Strings are modelled as `List Char` (`Str`); Python's Unicode-aware character
classes (`\d`, `\w`, `\s`, `str.strip`, `str.lower`) are modelled on their ASCII
behaviour, which is the relevant one for this program's inputs.  Floating-point
scores are modelled as exact rationals.  `difflib.SequenceMatcher` is modelled
below the autojunk threshold (strings shorter than 200 characters never engage
autojunk; the heuristic does not affect any property proved here).
-/

set_option synthInstance.maxSize 1024

set_option allowUnsafeReducibility true in
attribute [semireducible] Rat.mul Rat.inv Rat.add Rat.sub Rat.div Rat.blt

namespace CVProc

/-- Model of a Python `str` as a list of characters. -/
abbrev Str := List Char

/-- Whitespace test (ASCII model of Python's default `str.split`/`str.strip`). -/
def isWS (c : Char) : Bool := c == ' ' || c == '\t' || c == '\r' || c == '\n'

/-- Word character, ASCII model of the regex class `\w` (for `\b` boundaries). -/
def isWordC (c : Char) : Bool := c.isAlphanum || c == '_'

/-- Membership in Python's `string.punctuation` (ASCII 33-47, 58-64, 91-96, 123-126). -/
def isPunctC (c : Char) : Bool :=
  let n := c.toNat
  (33 ≤ n && n ≤ 47) || (58 ≤ n && n ≤ 64) || (91 ≤ n && n ≤ 96) || (123 ≤ n && n ≤ 126)

/-- The characters removed by `MULTI_X = re.compile(r'x{3,}', re.IGNORECASE)`. -/
def isXC (c : Char) : Bool := c == 'x' || c == 'X'

/-- Python `str.strip()`: drop leading and trailing whitespace. -/
def trimS (l : Str) : Str := ((l.dropWhile isWS).reverse.dropWhile isWS).reverse

/-- Worker for `cleanST`: collapse whitespace runs to single spaces and trim.
`started` records whether a non-whitespace character has been emitted,
`pend` whether a whitespace run is pending. -/
def cwGo (started pend : Bool) : Str → Str
  | [] => []
  | c :: cs =>
    if isWS c then cwGo started true cs
    else if started && pend then ' ' :: c :: cwGo true false cs
    else c :: cwGo true false cs

/-- `clean_space_tabs` from sorterv2.py: `' '.join(text.replace('\t',' ').split())`,
i.e. collapse every whitespace run to a single space and trim both ends. -/
def cleanST (l : Str) : Str := cwGo false false l

/-- Worker for `wordsS`; `acc` holds the current word reversed. -/
def wordsGo (acc : Str) : Str → List Str
  | [] => if acc.isEmpty then [] else [acc.reverse]
  | c :: cs =>
    if isWS c then (if acc.isEmpty then wordsGo [] cs else acc.reverse :: wordsGo [] cs)
    else wordsGo (c :: acc) cs

/-- Python `str.split()` with no arguments: whitespace-separated words, no empties. -/
def wordsS (l : Str) : List Str := wordsGo [] l

/-- The regex `YEAR_LINE = re.compile(r'^\s*(\d{4})\b')` as a recogniser:
optional leading whitespace, four digits, then a word boundary. -/
def yearLineMatch (l : Str) : Bool :=
  match l.dropWhile isWS with
  | d1 :: d2 :: d3 :: d4 :: rest =>
    d1.isDigit && d2.isDigit && d3.isDigit && d4.isDigit &&
    (match rest with
     | [] => true
     | c :: _ => !(isWordC c))
  | _ => false

/-- `extract_year`: the captured 4-digit group of `YEAR_LINE`, or `None`. -/
def extractYear (l : Str) : Option Str :=
  if yearLineMatch l then some ((l.dropWhile isWS).take 4) else none

/-- `strip_leading_year`: when `YEAR_LINE` matches, remove `^\s*\d{4}\s*`. -/
def stripLeadingYear (l : Str) : Str :=
  if yearLineMatch l then ((l.dropWhile isWS).drop 4).dropWhile isWS else l

/-- Emit a pending x-run: runs of length ≥ 3 are deleted (`x{3,}` → empty). -/
def flushX (p : Str) : Str := if 3 ≤ p.length then [] else p.reverse

/-- Worker for `removeXRuns`; `p` holds the current x-run reversed. -/
def goX (p : Str) : Str → Str
  | [] => flushX p
  | c :: cs => if isXC c then goX (c :: p) cs else flushX p ++ c :: goX [] cs

/-- `MULTI_X.sub('', t)`: delete every run of three or more x/X characters. -/
def removeXRuns (l : Str) : Str := goX [] l

/-- Python `str.lower()` (ASCII model). -/
def lowerS (l : Str) : Str := l.map Char.toLower

/-- `t.translate(str.maketrans('', '', string.punctuation))`. -/
def removePunct (l : Str) : Str := l.filter (fun c => !(isPunctC c))

/-- `normalize_after_year` from sorterv2.py: strip the leading year, lowercase,
delete long x-runs, delete punctuation, collapse whitespace. -/
def normalizeAfterYear (l : Str) : Str :=
  cleanST (removePunct (removeXRuns (lowerS (stripLeadingYear l))))

/-- The year strip inside the legacy `normalize_text`
(`re.sub(r'^\s*\d{4}\s*', '', t)` with no `\b` check). -/
def stripYearOld (l : Str) : Str :=
  match l.dropWhile isWS with
  | d1 :: d2 :: d3 :: d4 :: rest =>
    if d1.isDigit && d2.isDigit && d3.isDigit && d4.isDigit then rest.dropWhile isWS else l
  | _ => l

/-- `normalize_text` from old/sorterv2.py: lowercase, strip a leading 4-digit run,
delete long x-runs, delete punctuation, collapse whitespace. -/
def normalizeTextOld (l : Str) : Str :=
  cleanST (removePunct (removeXRuns (stripYearOld (lowerS l))))

/-- Character comparison `a[i] == b[j]`, false when out of range. -/
def chEq (a b : Str) (i j : Nat) : Bool :=
  match a.get? i, b.get? j with
  | some c, some d => c == d
  | _, _ => false

/-- Guard for `runLen`: both indices are inside the window and the characters agree. -/
def rlCond (a b : Str) (alo blo i j : Nat) : Bool :=
  decide (alo ≤ i) && decide (blo ≤ j) && chEq a b i j

/-- Length of the maximal matching run ending at positions `(i, j)` and staying inside
the window `[alo, _) × [blo, _)`.  This is what `SequenceMatcher.find_longest_match`
computes row by row in its `j2len` dictionary. -/
def runLen (a b : Str) (alo blo : Nat) : Nat → Nat → Nat
  | 0, j => if rlCond a b alo blo 0 j then 1 else 0
  | i+1, 0 => if rlCond a b alo blo (i+1) 0 then 1 else 0
  | i+1, j+1 =>
    if rlCond a b alo blo (i+1) (j+1) then
      (if i + 1 = alo ∨ j + 1 = blo then 1 else runLen a b alo blo i j + 1)
    else 0

/-- One inner-loop step of `find_longest_match`: keep the candidate block ending at
`(i, j)` only when strictly longer than the best so far. -/
def flmInStep (a b : Str) (alo blo i : Nat) (best : Nat × Nat × Nat) (j : Nat) :
    Nat × Nat × Nat :=
  let k := runLen a b alo blo i j
  if best.2.2 < k then (i + 1 - k, j + 1 - k, k) else best

/-- `SequenceMatcher.find_longest_match` on the window `[alo, ahi) × [blo, bhi)`
(no junk: `isjunk=None` and autojunk not engaged): scan end positions in
lexicographic order and keep the first strictly longest run. -/
def flm (a b : Str) (alo ahi blo bhi : Nat) : Nat × Nat × Nat :=
  (List.range' alo (ahi - alo)).foldl
    (fun best i => (List.range' blo (bhi - blo)).foldl (flmInStep a b alo blo i) best)
    (alo, blo, 0)

/-- Total size of all matching blocks found by `SequenceMatcher.get_matching_blocks`:
recursively split around the longest match.  `fuel` dominates the recursion depth;
`seqRatio` supplies more than enough. -/
def matchTotal (a b : Str) : Nat → Nat → Nat → Nat → Nat → Nat
  | 0, _, _, _, _ => 0
  | fuel+1, alo, ahi, blo, bhi =>
    match flm a b alo ahi blo bhi with
    | (i, j, k) =>
      if k = 0 then 0
      else matchTotal a b fuel alo i blo j + k + matchTotal a b fuel (i + k) ahi (j + k) bhi

/-- `difflib.SequenceMatcher(None, a, b).ratio()`: `2*M/T` where `M` is the total
matched size and `T` the total length; `1.0` when both strings are empty. -/
def seqRatio (a b : Str) : ℚ :=
  let T := a.length + b.length
  if T = 0 then 1
  else (2 * (matchTotal a b (T + 1) 0 a.length 0 b.length) : ℚ) / (T : ℚ)

/-- Token set `set(s.split())` used by `similarity_score`. -/
def tokFin (l : Str) : Finset Str := (wordsS l).toFinset

/-- `similarity_score(a_norm, b_norm)` from sorterv2.py: `0.0` when either input is
empty; otherwise `0.7 * SequenceMatcher-ratio + 0.3 * token-Jaccard`. -/
def simScore (aN bN : Str) : ℚ :=
  if aN = [] ∨ bN = [] then 0
  else
    let rSeq := seqRatio aN bN
    let sa := tokFin aN
    let sb := tokFin bN
    let rJac : ℚ :=
      if sa = ∅ ∨ sb = ∅ then 0
      else if (sa ∪ sb).card = 0 then 0
      else ((sa ∩ sb).card : ℚ) / (((sa ∪ sb).card : ℚ))
    (7/10) * rSeq + (3/10) * rJac

/-- The stop-word list of the legacy `token_set`. -/
def stopWords : List Str :=
  (["a", "an", "the", "to", "of", "and", "in", "for", "with", "on", "by", "from",
    "study", "phase", "randomized", "openlabel", "double", "single", "dose",
    "multiple", "ascending", "participants", "healthy", "placebo", "controlled",
    "evaluate", "assess", "safety", "tolerability"]).map String.data

/-- `token_set` from old/sorterv2.py: normalized tokens minus stop words, as a set. -/
def tokenSetOld (l : Str) : Finset Str :=
  ((wordsS (normalizeTextOld l)).filter (fun t => !(stopWords.contains t))).toFinset

/-- `jaccard_similarity` from old/sorterv2.py. -/
def jaccardOld (a b : Str) : ℚ :=
  let sa := tokenSetOld a
  let sb := tokenSetOld b
  if sa.card = 0 ∧ sb.card = 0 then 1
  else if sa.card = 0 ∨ sb.card = 0 then 0
  else if (sa ∪ sb).card = 0 then 0
  else ((sa ∩ sb).card : ℚ) / (((sa ∪ sb).card : ℚ))

/-- `combined_similarity` from old/sorterv2.py with its default weights
`0.6 * seq + 0.4 * jaccard`; both sides are normalized internally. -/
def combinedSimilarity (a b : Str) : ℚ :=
  (3/5) * seqRatio (normalizeTextOld a) (normalizeTextOld b) + (2/5) * jaccardOld a b

/-- The trailing separator class `[:.\-–—]?` of the phase-header patterns. -/
def sepEnd (c : Char) : Bool := c == ':' || c == '.' || c == '-' || c == '–' || c == '—'

/-- The inner separator class `[-–—/ ]` of the Phase II-IV patterns. -/
def dashSep (c : Char) : Bool := c == '-' || c == '–' || c == '—' || c == '/' || c == ' '

/-- Prefix match: `some` remainder when `p` is a prefix of `l`. -/
def dropPre (p l : Str) : Option Str :=
  if p.isPrefixOf l then some (l.drop p.length) else none

/-- Tail of every phase-header pattern: `\s*[:.\-–—]?\s*$`. -/
def tailEnd (l : Str) : Bool :=
  let l1 := l.dropWhile isWS
  let l2 := match l1 with
    | [] => ([] : Str)
    | c :: cs => if sepEnd c then cs else c :: cs
  (l2.dropWhile isWS).isEmpty

/-- After `phase\s*` in a Phase I pattern: the marker (`i` or `1`) then `tailEnd`. -/
def phase1Tail (marker l : Str) : Bool :=
  match dropPre marker l with
  | some r => tailEnd r
  | none => false

/-- After `phase\s*` in a Phase II-IV pattern: first marker, `\s*[-–—/ ]*`,
second marker, then `tailEnd`. -/
def phase24Tail (m1 m2 l : Str) : Bool :=
  match dropPre m1 l with
  | some r =>
    match dropPre m2 ((r.dropWhile isWS).dropWhile dashSep) with
    | some r2 => tailEnd r2
    | none => false
  | none => false

/-- Canonical label `PHASE_I_LABEL`. -/
def phase1Label : Str := ("Phase I".data)

/-- Canonical label `PHASE_II_IV_LABEL`. -/
def phase24Label : Str := ("Phase II-IV".data)

/-- `is_phase_header`: strip, then try the Phase I patterns, then Phase II-IV,
case-insensitively; all patterns start `^\s*phase`. -/
def isPhaseHeader (l : Str) : Option Str :=
  let t := lowerS (trimS l)
  match dropPre ("phase".data) t with
  | none => none
  | some r =>
    let r1 := r.dropWhile isWS
    if phase1Tail ("i".data) r1 then some phase1Label
    else if phase1Tail ("1".data) r1 then some phase1Label
    else if phase24Tail ("ii".data) ("iv".data) r1 then some phase24Label
    else if phase24Tail ("2".data) ("4".data) r1 then some phase24Label
    else none

/-- Ordered `phase → category → studies` hierarchy (`OrderedDict` of `OrderedDict`). -/
abbrev Taxo := List (Str × List (Str × List Str))

/-- Key membership in an ordered association list (Python `key in dict`). -/
def hasKey (xs : List (Str × α)) (k : Str) : Bool := xs.any (fun e => e.1 == k)

/-- Update the value at key `k` (Python `dict[k] = f(dict[k])`); identity if absent. -/
def updKey (k : Str) (f : α → α) : List (Str × α) → List (Str × α)
  | [] => []
  | (k', v) :: rest => if k' == k then (k', f v) :: rest else (k', v) :: updKey k f rest

/-- `ensure_phase` from `parse_master_hierarchy`. -/
def ensurePhase (t : Taxo) (ph : Str) : Taxo := if hasKey t ph then t else t ++ [(ph, [])]

/-- `ensure_category` from `parse_master_hierarchy`. -/
def ensureCat (t : Taxo) (ph cat : Str) : Taxo :=
  updKey ph (fun cats => if hasKey cats cat then cats else cats ++ [(cat, [])]) (ensurePhase t ph)

/-- `phases[ph][cat].append(s)`. -/
def appendStudy (t : Taxo) (ph cat : Str) (s : Str) : Taxo :=
  updKey ph (updKey cat (fun ss => ss ++ [s])) t

/-- Parser state of `parse_master_hierarchy`: the hierarchy built so far plus the
`current_phase` / `current_category` / `current_study` variables. -/
structure MState where
  taxo : Taxo
  cp : Option Str
  cc : Option Str
  cur : Option Str

/-- The commit step repeated in every branch of `parse_master_hierarchy`:
when a study is buffered and both phase and category are set, ensure the bucket
and append `clean_space_tabs(current_study)`, clearing the buffer. -/
def mCommit (st : MState) : MState :=
  match st.cur with
  | none => st
  | some s =>
    match st.cp with
    | none => st
    | some ph =>
      match st.cc with
      | none => st
      | some cat =>
        { st with
          taxo := appendStudy (ensureCat st.taxo ph cat) ph cat (cleanST s)
          cur := none }

/-- One line of `parse_master_hierarchy`: blank → commit; phase header → commit and
switch phase (category reset); year line → commit, default phase/category if unset,
open a buffer; otherwise a category header (trailing colon stripped) — unless it
strips to empty, in which case the line is ignored entirely. -/
def mStep (st : MState) (line : Str) : MState :=
  if (trimS line).isEmpty then mCommit st
  else
    match isPhaseHeader line with
    | some ph =>
      let st1 := mCommit st
      { st1 with taxo := ensurePhase st1.taxo ph, cp := some ph, cc := none }
    | none =>
      if yearLineMatch line then
        let st1 := mCommit st
        let tp : Taxo × Str :=
          match st1.cp with
          | some p => (st1.taxo, p)
          | none => (ensurePhase st1.taxo phase1Label, phase1Label)
        let tc : Taxo × Str :=
          match st1.cc with
          | some c => (tp.1, c)
          | none => (ensureCat tp.1 tp.2 (("Uncategorized".data)), ("Uncategorized".data))
        { taxo := tc.1, cp := some tp.2, cc := some tc.2, cur := some (trimS line) }
      else
        let cat0 := trimS line
        let cat := if cat0.getLast? == some ':' then trimS cat0.dropLast else cat0
        if cat.isEmpty then st
        else
          let st1 := mCommit st
          let tp : Taxo × Str :=
            match st1.cp with
            | some p => (st1.taxo, p)
            | none => (ensurePhase st1.taxo phase1Label, phase1Label)
          { taxo := ensureCat tp.1 tp.2 (cleanST cat), cp := some tp.2,
            cc := some (cleanST cat), cur := st1.cur }

/-- `parse_master_hierarchy` over a list of lines (newlines already removed). -/
def parseMaster (lines : List Str) : Taxo :=
  (mCommit (lines.foldl mStep ⟨[], none, none, none⟩)).taxo

/-- The `END_MARKER` footer sentinel of `parse_unsorted_studies`. -/
def endMarker : Str :=
  ("By signing this form, I confirm that the information provided is accurate and reflects my current qualifications.".data)

/-- `raw.split(END_MARKER, 1)[0]` under a found-test: the prefix of `l` before the
first occurrence of the sentinel, or `none` when the sentinel does not occur. -/
def splitAtMarker : Str → Option Str
  | [] => none
  | c :: cs =>
    if endMarker.isPrefixOf (c :: cs) then some []
    else (splitAtMarker cs).map (fun p => c :: p)

/-- Final or forced flush of the candidate parser's buffer. -/
def puFlush : Option Str → List Str
  | none => []
  | some c => [cleanST c]

/-- The part of a raw line kept after cutting at the sentinel. -/
def cutL (raw : Str) : Str :=
  match splitAtMarker raw with
  | some p => p
  | none => raw

/-- Whether the sentinel occurred on this raw line (`hit_end`). -/
def hitB (raw : Str) : Bool := (splitAtMarker raw).isSome

/-- The loop of `parse_unsorted_studies`.  Note the continuation branch with no
open buffer executes `continue`, which skips the `hit_end` check — faithful to
the source. -/
def puAux (cur : Option Str) : List Str → List Str
  | [] => puFlush cur
  | raw :: rest =>
    let l := cutL raw
    let hit := hitB raw
    if (trimS l).isEmpty then
      puFlush cur ++ (if hit then [] else puAux none rest)
    else if yearLineMatch l then
      puFlush cur ++ (if hit then [cleanST (trimS l)] else puAux (some (trimS l)) rest)
    else
      match cur with
      | none => puAux none rest
      | some c =>
        let c2 := c ++ ' ' :: trimS l
        if hit then [cleanST c2] else puAux (some c2) rest

/-- `parse_unsorted_studies` over a list of lines. -/
def parseUnsorted (lines : List Str) : List Str := puAux none lines

/-- Flattened primary-master entry as precomputed by `categorize_with_master`:
`(phase, cat, line)` plus `c_year`, `c_after`, `c_after_norm`. -/
structure CEntry where
  phase : Str
  cat : Str
  line : Str
  year : Option Str
  after : Str
  norm : Str
deriving DecidableEq, Repr

/-- Flattened secondary-master entry: `flat_b` triple plus `b_year`, `b_after_norm`. -/
structure BEntry where
  phase : Str
  cat : Str
  line : Str
  year : Option Str
  norm : Str
deriving DecidableEq, Repr

/-- `flatten_studies`: the `(phase, category, line)` triples in taxonomy order. -/
def flattenT (t : Taxo) : List (Str × Str × Str) :=
  t.flatMap (fun pc => pc.2.flatMap (fun cs => cs.2.map (fun s => (pc.1, cs.1, s))))

/-- Precompute the Column-C arrays (`c_year`, `c_after`, `c_after_norm`, …). -/
def buildC (t : Taxo) : List CEntry :=
  (flattenT t).map (fun e =>
    ⟨e.1, e.2.1, e.2.2, extractYear e.2.2, trimS (stripLeadingYear e.2.2),
     normalizeAfterYear e.2.2⟩)

/-- Precompute the Column-B arrays (`b_year`, `b_after_norm`). -/
def buildB (t : Taxo) : List BEntry :=
  (flattenT t).map (fun e => ⟨e.1, e.2.1, e.2.2, extractYear e.2.2, normalizeAfterYear e.2.2⟩)

/-- The guard `u_year is not None and yr is not None and yr == u_year` of the
year-scoped passes. -/
def eligB (uY ey : Option Str) : Bool :=
  match uY, ey with
  | some y, some ye => ye == y
  | _, _ => false

/-- One iteration of a year-scoped best-score loop (`PASS 1`/`PASS 2`): eligible
only when both the candidate and the entry have a year and they agree; keep the
score only when strictly greater than the best so far. -/
def bestStep (uY : Option Str) (normU : Str) (best : Option Nat × ℚ)
    (ie : Nat × Option Str × Str) : Option Nat × ℚ :=
  if eligB uY ie.2.1 then
    let sc := simScore normU ie.2.2
    if best.2 < sc then (some ie.1, sc) else best
  else best

/-- Year-scoped maximum over a flattened master's `(year, norm)` pairs, starting
from `best_idx = None`, `best_score = 0.0`. -/
def bestOver (items : List (Option Str × Str)) (uY : Option Str) (normU : Str) :
    Option Nat × ℚ :=
  (items.enum).foldl (bestStep uY normU) (none, 0)

/-- Outcome of the per-candidate matching logic. -/
inductive MDecision where
  | emptyU : MDecision
  | hit1 : Nat → ℚ → MDecision
  | hit2 : Nat → ℚ → MDecision
  | nomatch : MDecision
deriving DecidableEq, Repr

/-- `PASS 2` and the fall-through, mirroring the guard
`best_idx_b is not None and best_score_b >= threshold`.  The Python guard
`phases_b is not None and flat_b` collapses to `B ≠ []`: an absent secondary and a
secondary that flattens to nothing behave identically. -/
def decideB (B : List BEntry) (θ : ℚ) (uY : Option Str) (normU : Str) : MDecision :=
  if B.isEmpty then .nomatch
  else
    let p2 := bestOver (B.map (fun e => (e.year, e.norm))) uY normU
    if p2.1.isSome ∧ θ ≤ p2.2 then .hit2 (p2.1.getD 0) p2.2 else .nomatch

/-- The per-candidate control flow of `categorize_with_master`: empty after-year
text short-circuits; otherwise `PASS 1` over Column C (guard
`best_idx_c is not None and best_score_c >= threshold`), then `PASS 2` over
Column B.  The decision depends only on the candidate and the flattened masters,
never on the accumulated buckets. -/
def decideFor (C : List CEntry) (B : List BEntry) (θ : ℚ) (u : Str) : MDecision :=
  let afterU := trimS (stripLeadingYear u)
  let normU := normalizeAfterYear u
  let uY := extractYear u
  if afterU.isEmpty then .emptyU
  else
    let p1 := bestOver (C.map (fun e => (e.year, e.norm))) uY normU
    if p1.1.isSome ∧ θ ≤ p1.2 then .hit1 (p1.1.getD 0) p1.2
    else decideB B θ uY normU

/-- Audit row `(unsorted, matched_master, phase, category, score)`. -/
abbrev Row := Str × Option Str × Option Str × Option Str × ℚ

/-- Python's falsy-chain `a or b` on an optional string. -/
def orStr (o : Option Str) (alt : Str) : Str :=
  match o with
  | some s => if s.isEmpty then alt else s
  | none => alt

/-- The reserved `Uncategorized/Uncategorized` bucket key. -/
def uncatKey : Str × Str := (("Uncategorized".data), ("Uncategorized".data))

/-- Indexing helper `C[i]` (callers stay in range). -/
def cAt (C : List CEntry) (i : Nat) : CEntry := C.getD i ⟨[], [], [], none, [], []⟩

/-- Indexing helper `B[i]` (callers stay in range). -/
def bAt (B : List BEntry) (i : Nat) : BEntry := B.getD i ⟨[], [], [], none, []⟩

/-- The audit row emitted for one candidate. -/
def rowFor (C : List CEntry) (B : List BEntry) (θ : ℚ) (u : Str) : Row :=
  match decideFor C B θ u with
  | .emptyU => (u, none, none, none, 0)
  | .hit1 i sc => (u, some (cAt C i).line, some (cAt C i).phase, some (cAt C i).cat, sc)
  | .hit2 i sc =>
    if i < C.length then
      (u, some (cAt C i).line, some (cAt C i).phase, some (cAt C i).cat, sc)
    else (u, some (bAt B i).line, some (bAt B i).phase, some (bAt B i).cat, sc)
  | .nomatch => (u, none, none, none, 0)

/-- The bucket key and `(year, after_year_text)` pair appended for one candidate.
On a `PASS 2` hit the primary entry at the same flattened index supplies everything
when the index is within `flat_c`; otherwise the secondary entry itself does. -/
def placeFor (C : List CEntry) (B : List BEntry) (θ : ℚ) (u : Str) :
    (Str × Str) × (Str × Str) :=
  let uY := extractYear u
  let afterU := trimS (stripLeadingYear u)
  match decideFor C B θ u with
  | .emptyU => (uncatKey, (orStr uY [], afterU))
  | .hit1 i _ =>
    (((cAt C i).phase, (cAt C i).cat), (orStr (cAt C i).year (orStr uY []), (cAt C i).after))
  | .hit2 i _ =>
    if i < C.length then
      (((cAt C i).phase, (cAt C i).cat), (orStr (cAt C i).year (orStr uY []), (cAt C i).after))
    else
      (((bAt B i).phase, (bAt B i).cat),
       (orStr (extractYear (bAt B i).line) (orStr uY []), trimS (stripLeadingYear (bAt B i).line)))
  | .nomatch => (uncatKey, (orStr uY [], afterU))

/-- Categorized result: ordered phase → category → list of `(year, after_text)`. -/
abbrev Buckets := List (Str × List (Str × List (Str × Str)))

/-- Update at a key that must exist (`dict[k]` lookup): `none` models `KeyError`. -/
def updKeyOpt (k : Str) (f : α → Option α) : List (Str × α) → Option (List (Str × α))
  | [] => none
  | (k', v) :: rest =>
    if k' == k then (f v).map (fun v' => (k', v') :: rest)
    else (updKeyOpt k f rest).map (fun r => (k', v) :: r)

/-- `categorized[ph][cat].append(pr)` — `KeyError` (`none`) when the bucket is absent. -/
def bucketsAppend (ph cat : Str) (pr : Str × Str) (bks : Buckets) : Option Buckets :=
  updKeyOpt ph (fun cats => updKeyOpt cat (fun l => some (l ++ [pr])) cats) bks

/-- Seed the result with every primary bucket empty plus `Uncategorized/Uncategorized`. -/
def seedBuckets (t : Taxo) : Buckets :=
  let base := t.map (fun pc => (pc.1, pc.2.map (fun cs => (cs.1, ([] : List (Str × Str))))))
  let base2 := if hasKey base uncatKey.1 then base else base ++ [(uncatKey.1, [])]
  updKey uncatKey.1
    (fun cats => if hasKey cats uncatKey.2 then cats else cats ++ [(uncatKey.2, [])]) base2

/-- The candidate loop: per candidate, append its placement (possibly `KeyError`)
and its audit row. -/
def coreLoop (C : List CEntry) (B : List BEntry) (θ : ℚ) :
    Buckets → List Row → List Str → Option (Buckets × List Row)
  | bks, aud, [] => some (bks, aud)
  | bks, aud, u :: us =>
    match bucketsAppend (placeFor C B θ u).1.1 (placeFor C B θ u).1.2
        (placeFor C B θ u).2 bks with
    | none => none
    | some bks' => coreLoop C B θ bks' (aud ++ [rowFor C B θ u]) us

/-- `year_as_int`: `int(yy)` with any failure mapped to `-1`.  In this engine the
key is either a four-ASCII-digit match of the year pattern or the empty string, so
`int` succeeds exactly on a nonempty all-digit key, giving its decimal value. -/
def yearAsInt (s : Str) : Int :=
  if s ≠ [] ∧ s.all (fun c => c.isDigit) then
    Int.ofNat (s.foldl (fun n c => 10 * n + (c.toNat - 48)) 0)
  else -1

/-- Stable descending insertion by `year_as_int`: an element passes only elements
with strictly smaller keys, so equal keys keep arrival order. -/
def insYD (p : Str × Str) : List (Str × Str) → List (Str × Str)
  | [] => [p]
  | q :: qs => if yearAsInt q.1 ≤ yearAsInt p.1 then p :: q :: qs else q :: insYD p qs

/-- Stable sort by integer year descending, modelling Python's stable
`sorted(items, key=year_as_int, reverse=True)`. -/
def sortYearDesc : List (Str × Str) → List (Str × Str)
  | [] => []
  | p :: ps => insYD p (sortYearDesc ps)

/-- The post-pass: sort inside each category by year descending. -/
def sortBuckets (bks : Buckets) : Buckets :=
  bks.map (fun pc => (pc.1, pc.2.map (fun cs => (cs.1, sortYearDesc cs.2))))

/-- The flattened secondary master: empty when no secondary taxonomy is supplied. -/
def bFlat (tB : Option Taxo) : List BEntry :=
  match tB with
  | some t => buildB t
  | none => []

/-- `categorize_with_master` up to (excluding) the final sort. -/
def categorizeCore (tC : Taxo) (tB : Option Taxo) (us : List Str) (θ : ℚ) :
    Option (Buckets × List Row) :=
  coreLoop (buildC tC) (bFlat tB) θ (seedBuckets tC) [] us

/-- `categorize_with_master(phases_c, phases_b, unsorted_studies, threshold)`:
`none` models the run aborting with a `KeyError` (the secondary fallback indexing
a bucket the primary never seeded). -/
def categorizeWithMaster (tC : Taxo) (tB : Option Taxo) (us : List Str) (θ : ℚ) :
    Option (Buckets × List Row) :=
  (categorizeCore tC tB us θ).map (fun r => (sortBuckets r.1, r.2))

/-- Modelled from the wording of the truncation claim: cut the line sequence at the
first occurrence of the end-of-section sentinel, keeping the part of that line
before the sentinel. -/
def truncAtSentinel : List Str → List Str
  | [] => []
  | l :: ls =>
    match splitAtMarker l with
    | some p => [p]
    | none => l :: truncAtSentinel ls

/-- Total number of `(year, text)` pairs across all buckets. -/
def totalCount (bks : Buckets) : Nat :=
  (bks.map (fun pc => (pc.2.map (fun cs => cs.2.length)).sum)).sum

/-- A bucket is sorted by integer year, descending, between adjacent entries. -/
def bucketSortedDesc (l : List (Str × Str)) : Prop :=
  l.Chain' (fun A B => yearAsInt B.1 ≤ yearAsInt A.1)

/-- Generic `foldl` invariant principle. -/
theorem foldlInv {α β : Type} (P : β → Prop) (f : β → α → β) :
    ∀ (l : List α) (init : β), P init → (∀ b a, a ∈ l → P b → P (f b a)) →
      P (l.foldl f init)
  | [], _, h, _ => h
  | a :: l, init, h, hstep =>
    foldlInv P f l (f init a) (hstep init a (List.mem_cons_self a l) h)
      (fun b x hx hb => hstep b x (List.mem_cons_of_mem a hx) hb)

theorem rlCond_facts {a b : Str} {alo blo i j : Nat} (h : rlCond a b alo blo i j = true) :
    alo ≤ i ∧ blo ≤ j ∧ i < a.length ∧ j < b.length := by
  unfold rlCond chEq at h
  rw [Bool.and_eq_true, Bool.and_eq_true] at h
  rcases h with ⟨⟨ha, hb⟩, hc⟩
  refine ⟨of_decide_eq_true ha, of_decide_eq_true hb, ?_, ?_⟩
  · rcases h1 : a.get? i with _ | c
    · rw [h1] at hc
      simp at hc
    · exact (List.get?_eq_some.mp h1).1
  · rcases h2 : b.get? j with _ | d
    · rw [h2] at hc
      rcases h1 : a.get? i with _ | c <;> rw [h1] at hc <;> simp at hc
    · exact (List.get?_eq_some.mp h2).1

theorem runLen_pos_facts (a b : Str) (alo blo : Nat) :
    ∀ i j, 0 < runLen a b alo blo i j →
      alo ≤ i ∧ blo ≤ j ∧ i < a.length ∧ j < b.length ∧
      alo + runLen a b alo blo i j ≤ i + 1 ∧ blo + runLen a b alo blo i j ≤ j + 1 := by
  intro i
  induction i with
  | zero =>
    intro j h
    rw [runLen] at h ⊢
    by_cases hc : rlCond a b alo blo 0 j = true
    · rcases rlCond_facts hc with ⟨h1, h2, h3, h4⟩
      simp [hc] at h ⊢
      omega
    · simp [hc] at h
  | succ i ih =>
    intro j h
    cases j with
    | zero =>
      rw [runLen] at h ⊢
      by_cases hc : rlCond a b alo blo (i + 1) 0 = true
      · rcases rlCond_facts hc with ⟨h1, h2, h3, h4⟩
        simp [hc] at h ⊢
        omega
      · simp [hc] at h
    | succ j =>
      rw [runLen] at h ⊢
      by_cases hc : rlCond a b alo blo (i + 1) (j + 1) = true
      · rcases rlCond_facts hc with ⟨h1, h2, h3, h4⟩
        by_cases hb : i + 1 = alo ∨ j + 1 = blo
        · simp [hc, hb]
          omega
        · simp [hc, hb] at h ⊢
          by_cases hr : 0 < runLen a b alo blo i j
          · rcases ih j hr with ⟨g1, g2, g3, g4, g5, g6⟩
            omega
          · have : runLen a b alo blo i j = 0 := by omega
            rw [this]
            omega
      · simp [hc] at h

/-- Shape invariant delivered by `flm`: a zero-length result or a block inside the
window. -/
def flmOk (alo ahi blo bhi : Nat) (t : Nat × Nat × Nat) : Prop :=
  t.2.2 = 0 ∨ (alo ≤ t.1 ∧ t.1 + t.2.2 ≤ ahi ∧ blo ≤ t.2.1 ∧ t.2.1 + t.2.2 ≤ bhi)

theorem flm_ok (a b : Str) (alo ahi blo bhi : Nat) :
    flmOk alo ahi blo bhi (flm a b alo ahi blo bhi) := by
  unfold flm
  apply foldlInv (flmOk alo ahi blo bhi)
  · exact Or.inl rfl
  · intro best i hi hbest
    have hi' : alo ≤ i ∧ i < ahi := by
      rcases List.mem_range'_1.mp hi with ⟨u1, u2⟩
      omega
    apply foldlInv (flmOk alo ahi blo bhi)
    · exact hbest
    · intro best' j hj hbest'
      have hj' : blo ≤ j ∧ j < bhi := by
        rcases List.mem_range'_1.mp hj with ⟨u1, u2⟩
        omega
      unfold flmInStep
      dsimp only
      by_cases hup : best'.2.2 < runLen a b alo blo i j
      · have hpos : 0 < runLen a b alo blo i j := by omega
        rcases runLen_pos_facts a b alo blo i j hpos with ⟨g1, g2, g3, g4, g5, g6⟩
        rw [if_pos hup]
        unfold flmOk
        dsimp only
        right
        refine ⟨by omega, by omega, by omega, by omega⟩
      · rw [if_neg hup]
        exact hbest'

theorem matchTotal_le (a b : Str) :
    ∀ fuel alo ahi blo bhi,
      matchTotal a b fuel alo ahi blo bhi ≤ min (ahi - alo) (bhi - blo) := by
  intro fuel
  induction fuel with
  | zero => intro alo ahi blo bhi; simp [matchTotal]
  | succ fuel ih =>
    intro alo ahi blo bhi
    have hok := flm_ok a b alo ahi blo bhi
    rcases hf : flm a b alo ahi blo bhi with ⟨i, j, k⟩
    rw [hf] at hok
    unfold flmOk at hok
    dsimp only at hok
    rw [matchTotal, hf]
    by_cases hk : k = 0
    · simp [hk]
    · simp only [hk, if_neg, not_false_iff]
      rcases hok with h0 | ⟨g1, g2, g3, g4⟩
      · exact absurd h0 hk
      · have l1 := ih alo i blo j
        have l2 := ih (i + k) ahi (j + k) bhi
        omega

theorem matchTotal_nonneg_cast (a b : Str) (fuel alo ahi blo bhi : Nat) :
    (0 : ℚ) ≤ (matchTotal a b fuel alo ahi blo bhi : ℚ) := by
  exact_mod_cast Nat.zero_le _

theorem seqRatio_nonneg (a b : Str) : 0 ≤ seqRatio a b := by
  unfold seqRatio
  by_cases h : a.length + b.length = 0
  · simp [h]
  · simp only [h, if_neg, not_false_iff]
    apply div_nonneg
    · positivity
    · exact_mod_cast Nat.zero_le _

theorem foldl_keep {α β : Type} (l : List α) (init : β) :
    l.foldl (fun b _ => b) init = init := by
  induction l generalizing init with
  | nil => rfl
  | cons a l ih => exact ih init

theorem matchTotal_zero_left (a b : Str) (fuel alo ahi blo bhi : Nat) (h : ahi ≤ alo) :
    matchTotal a b fuel alo ahi blo bhi = 0 := by
  cases fuel with
  | zero => rfl
  | succ fuel =>
    rw [matchTotal]
    have : flm a b alo ahi blo bhi = (alo, blo, 0) := by
      unfold flm
      rw [Nat.sub_eq_zero_of_le h]
      rfl
    rw [this]
    simp

theorem matchTotal_zero_right (a b : Str) (fuel alo ahi blo bhi : Nat) (h : bhi ≤ blo) :
    matchTotal a b fuel alo ahi blo bhi = 0 := by
  cases fuel with
  | zero => rfl
  | succ fuel =>
    rw [matchTotal]
    have : flm a b alo ahi blo bhi = (alo, blo, 0) := by
      unfold flm
      rw [Nat.sub_eq_zero_of_le h]
      exact foldl_keep _ _
    rw [this]
    simp

theorem chEq_self (l : Str) (i : Nat) (h : i < l.length) : chEq l l i i = true := by
  unfold chEq
  rw [List.get?_eq_get h]
  simp

theorem runLen_self_diag (l : Str) : ∀ i, i < l.length → runLen l l 0 0 i i = i + 1 := by
  intro i
  induction i with
  | zero =>
    intro h
    rw [runLen]
    have : rlCond l l 0 0 0 0 = true := by
      unfold rlCond
      rw [chEq_self l 0 h]
      simp
    rw [if_pos this]
  | succ i ih =>
    intro h
    rw [runLen]
    have hc : rlCond l l 0 0 (i + 1) (i + 1) = true := by
      unfold rlCond
      rw [chEq_self l (i + 1) h]
      simp
    rw [if_pos hc, if_neg (by omega), ih (by omega)]

theorem flmIn_mono (a b : Str) (alo blo i : Nat) :
    ∀ (LJ : List Nat) (best : Nat × Nat × Nat),
      best.2.2 ≤ (LJ.foldl (flmInStep a b alo blo i) best).2.2 := by
  intro LJ
  induction LJ with
  | nil => intro best; exact le_refl _
  | cons j LJ ih =>
    intro best
    refine le_trans ?_ (ih (flmInStep a b alo blo i best j))
    unfold flmInStep
    dsimp only
    by_cases hup : best.2.2 < runLen a b alo blo i j
    · rw [if_pos hup]; exact Nat.le_of_lt hup
    · rw [if_neg hup]

theorem flmIn_ge (a b : Str) (alo blo i : Nat) :
    ∀ (LJ : List Nat) (best : Nat × Nat × Nat) (j : Nat), j ∈ LJ →
      runLen a b alo blo i j ≤ (LJ.foldl (flmInStep a b alo blo i) best).2.2 := by
  intro LJ
  induction LJ with
  | nil => intro best j hj; cases hj
  | cons j' LJ ih =>
    intro best j hj
    rcases List.mem_cons.mp hj with heq | hmem
    · subst heq
      refine le_trans ?_ (flmIn_mono a b alo blo i LJ (flmInStep a b alo blo i best j))
      unfold flmInStep
      dsimp only
      by_cases hup : best.2.2 < runLen a b alo blo i j
      · rw [if_pos hup]
      · rw [if_neg hup]; omega
    · exact ih (flmInStep a b alo blo i best j') j hmem

theorem flmOut_mono (a b : Str) (alo blo bhi : Nat) :
    ∀ (LI : List Nat) (best : Nat × Nat × Nat),
      best.2.2 ≤ (LI.foldl
        (fun best i => (List.range' blo (bhi - blo)).foldl (flmInStep a b alo blo i) best)
        best).2.2 := by
  intro LI
  induction LI with
  | nil => intro best; exact le_refl _
  | cons x LI ihL =>
    intro best
    exact le_trans (flmIn_mono a b alo blo x _ best) (ihL _)

theorem flmOut_ge (a b : Str) (alo blo bhi : Nat) :
    ∀ (LI : List Nat) (best : Nat × Nat × Nat) (i j : Nat),
      i ∈ LI → j ∈ List.range' blo (bhi - blo) →
      runLen a b alo blo i j ≤ (LI.foldl
        (fun best i => (List.range' blo (bhi - blo)).foldl (flmInStep a b alo blo i) best)
        best).2.2 := by
  intro LI
  induction LI with
  | nil => intro best i j hi _; cases hi
  | cons x LI ih =>
    intro best i j hi hj
    dsimp only [List.foldl_cons]
    rcases List.mem_cons.mp hi with heq | hmem
    · subst heq
      exact le_trans (flmIn_ge a b alo blo i _ best j hj) (flmOut_mono a b alo blo bhi LI _)
    · exact ih _ i j hmem hj

theorem flm_snd_ge (a b : Str) (alo ahi blo bhi : Nat) (i j : Nat)
    (h1 : alo ≤ i) (h2 : i < ahi) (h3 : blo ≤ j) (h4 : j < bhi) :
    runLen a b alo blo i j ≤ (flm a b alo ahi blo bhi).2.2 := by
  unfold flm
  exact flmOut_ge a b alo blo bhi _ _ i j (List.mem_range'_1.mpr ⟨h1, by omega⟩)
    (List.mem_range'_1.mpr ⟨h3, by omega⟩)

theorem seqRatio_le_one (a b : Str) : seqRatio a b ≤ 1 := by
  unfold seqRatio
  by_cases h : a.length + b.length = 0
  · simp [h]
  · simp only [h, if_neg, not_false_iff]
    rw [div_le_one (by exact_mod_cast Nat.pos_of_ne_zero h)]
    have hM := matchTotal_le a b (a.length + b.length + 1) 0 a.length 0 b.length
    have : 2 * matchTotal a b (a.length + b.length + 1) 0 a.length 0 b.length ≤
        a.length + b.length := by omega
    exact_mod_cast this

theorem flm_self (l : Str) (h : 0 < l.length) :
    flm l l 0 l.length 0 l.length = (0, 0, l.length) := by
  have hge : l.length ≤ (flm l l 0 l.length 0 l.length).2.2 := by
    have := flm_snd_ge l l 0 l.length 0 l.length (l.length - 1) (l.length - 1)
      (Nat.zero_le _) (by omega) (Nat.zero_le _) (by omega)
    rw [runLen_self_diag l (l.length - 1) (by omega)] at this
    omega
  have hok := flm_ok l l 0 l.length 0 l.length
  unfold flmOk at hok
  rcases hf : flm l l 0 l.length 0 l.length with ⟨i, j, k⟩
  rw [hf] at hok hge
  dsimp only at hok hge
  rcases hok with h0 | ⟨g1, g2, g3, g4⟩
  · omega
  · have hk : k = l.length := by omega
    have hi : i = 0 := by omega
    have hj : j = 0 := by omega
    rw [hi, hj, hk]

theorem matchTotal_self (l : Str) (fuel : Nat) (h : 0 < l.length) :
    matchTotal l l (fuel + 1) 0 l.length 0 l.length = l.length := by
  rw [matchTotal, flm_self l h]
  have hne : ¬(l.length = 0) := by omega
  simp only [hne, if_neg, not_false_iff]
  rw [matchTotal_zero_left l l fuel 0 0 0 0 (le_refl 0),
    matchTotal_zero_left l l fuel (0 + l.length) l.length (0 + l.length) l.length (by omega)]
  omega

theorem seqRatio_self (l : Str) : seqRatio l l = 1 := by
  unfold seqRatio
  by_cases h : l.length + l.length = 0
  · simp [h]
  · simp only [h, if_neg, not_false_iff]
    have hp : 0 < l.length := by omega
    have : l.length + l.length + 1 = (l.length + l.length) + 1 := rfl
    rw [matchTotal_self l (l.length + l.length) hp]
    rw [div_eq_one_iff_eq (by exact_mod_cast h)]
    push_cast
    ring

theorem jaccardOld_nonneg (a b : Str) : 0 ≤ jaccardOld a b := by
  unfold jaccardOld
  dsimp only
  split_ifs with h1 h2 h3
  · norm_num
  · norm_num
  · norm_num
  · positivity

theorem jaccardOld_le_one (a b : Str) : jaccardOld a b ≤ 1 := by
  unfold jaccardOld
  dsimp only
  split_ifs with h1 h2 h3
  · norm_num
  · norm_num
  · norm_num
  · rw [div_le_one (by exact_mod_cast Nat.pos_of_ne_zero h3)]
    have : (tokenSetOld a ∩ tokenSetOld b).card ≤ (tokenSetOld a ∪ tokenSetOld b).card :=
      Finset.card_le_card
        (le_trans (Finset.inter_subset_left) (Finset.subset_union_left))
    exact_mod_cast this

theorem simScore_nonneg (a b : Str) : 0 ≤ simScore a b := by
  unfold simScore
  dsimp only
  split_ifs with h1 h2 h3
  · norm_num
  · have := seqRatio_nonneg a b
    positivity
  · have := seqRatio_nonneg a b
    positivity
  · have hr := seqRatio_nonneg a b
    have hj : (0 : ℚ) ≤ ((tokFin a ∩ tokFin b).card : ℚ) / ((tokFin a ∪ tokFin b).card : ℚ) := by
      positivity
    positivity

theorem simScore_le_one (a b : Str) : simScore a b ≤ 1 := by
  unfold simScore
  dsimp only
  split_ifs with h1 h2 h3
  · norm_num
  · have := seqRatio_le_one a b
    linarith
  · have := seqRatio_le_one a b
    linarith
  · have hr := seqRatio_le_one a b
    have hj : ((tokFin a ∩ tokFin b).card : ℚ) / ((tokFin a ∪ tokFin b).card : ℚ) ≤ 1 := by
      rw [div_le_one (by exact_mod_cast Nat.pos_of_ne_zero h3)]
      have : (tokFin a ∩ tokFin b).card ≤ (tokFin a ∪ tokFin b).card :=
        Finset.card_le_card
          (le_trans (Finset.inter_subset_left) (Finset.subset_union_left))
      exact_mod_cast this
    linarith

theorem simScore_empty (a b : Str) (h : a = [] ∨ b = []) : simScore a b = 0 := by
  unfold simScore
  rw [if_pos h]

/-- The window `[lo, hi)` of a list. -/
def extractSeg (l : Str) (lo hi : Nat) : Str := (l.take hi).drop lo

theorem extractSeg_nil (l : Str) (lo hi : Nat) (h : hi ≤ lo) : extractSeg l lo hi = [] := by
  unfold extractSeg
  apply List.drop_eq_nil_of_le
  calc (l.take hi).length = min hi l.length := List.length_take hi l
    _ ≤ hi := min_le_left _ _
    _ ≤ lo := h

theorem extractSeg_full (l : Str) : extractSeg l 0 l.length = l := by
  unfold extractSeg
  rw [List.take_length, List.drop_zero]

theorem extractSeg_succ (l : Str) (lo hi : Nat) (h1 : lo ≤ hi) (h2 : hi < l.length) :
    extractSeg l lo (hi + 1) = extractSeg l lo hi ++ (l.get? hi).toList := by
  unfold extractSeg
  rw [List.take_succ, List.drop_append_eq_append_drop]
  have hlen : (l.take hi).length = hi := by
    rw [List.length_take]
    omega
  rw [hlen, Nat.sub_eq_zero_of_le h1, List.drop_zero]
  simp [List.get?_eq_getElem?]

theorem extractSeg_single (l : Str) (i : Nat) (h : i < l.length) :
    extractSeg l i (i + 1) = (l.get? i).toList := by
  rw [extractSeg_succ l i i (le_refl i) h, extractSeg_nil l i i (le_refl i), List.nil_append]

theorem extractSeg_split (l : Str) (lo mid hi : Nat) (h1 : lo ≤ mid) (h2 : mid ≤ hi)
    (h3 : hi ≤ l.length) :
    extractSeg l lo hi = extractSeg l lo mid ++ extractSeg l mid hi := by
  unfold extractSeg
  have hdec : l.take hi = l.take mid ++ (l.take hi).drop mid := by
    have : (l.take hi).take mid = l.take mid := by
      rw [List.take_take, min_eq_left h2]
    conv_lhs => rw [← List.take_append_drop mid (l.take hi)]
    rw [this]
  conv_lhs => rw [hdec]
  rw [List.drop_append_eq_append_drop]
  have hlen : (l.take mid).length = mid := by
    rw [List.length_take]
    omega
  rw [hlen, Nat.sub_eq_zero_of_le h1, List.drop_zero]

theorem chEq_get (a b : Str) (i j : Nat) (h : chEq a b i j = true) : a.get? i = b.get? j := by
  unfold chEq at h
  rcases h1 : a.get? i with _ | c <;> rcases h2 : b.get? j with _ | d <;>
      rw [h1, h2] at h <;> simp at h
  rw [h]

theorem rlCond_chEq {a b : Str} {alo blo i j : Nat} (h : rlCond a b alo blo i j = true) :
    chEq a b i j = true := by
  unfold rlCond at h
  rw [Bool.and_eq_true, Bool.and_eq_true] at h
  exact h.2

theorem runLen_sound (a b : Str) (alo blo : Nat) :
    ∀ i j, 0 < runLen a b alo blo i j →
      extractSeg a (i + 1 - runLen a b alo blo i j) (i + 1) =
      extractSeg b (j + 1 - runLen a b alo blo i j) (j + 1) := by
  intro i
  induction i with
  | zero =>
    intro j h
    rw [runLen] at h ⊢
    by_cases hc : rlCond a b alo blo 0 j = true
    · rcases rlCond_facts hc with ⟨h1, h2, h3, h4⟩
      rw [if_pos hc]
      simp only [Nat.add_sub_cancel]
      rw [extractSeg_single a 0 h3, extractSeg_single b j h4,
        chEq_get a b 0 j (rlCond_chEq hc)]
    · rw [if_neg hc] at h
      omega
  | succ i ih =>
    intro j h
    cases j with
    | zero =>
      rw [runLen] at h ⊢
      by_cases hc : rlCond a b alo blo (i + 1) 0 = true
      · rcases rlCond_facts hc with ⟨h1, h2, h3, h4⟩
        rw [if_pos hc]
        simp only [Nat.add_sub_cancel]
        rw [extractSeg_single a (i + 1) h3, extractSeg_single b 0 h4,
          chEq_get a b (i + 1) 0 (rlCond_chEq hc)]
      · rw [if_neg hc] at h
        omega
    | succ j =>
      rw [runLen] at h ⊢
      by_cases hc : rlCond a b alo blo (i + 1) (j + 1) = true
      · rcases rlCond_facts hc with ⟨h1, h2, h3, h4⟩
        rw [if_pos hc]
        by_cases hb : i + 1 = alo ∨ j + 1 = blo
        · rw [if_pos hb]
          have e1 : i + 1 + 1 - 1 = i + 1 := by omega
          have e2 : j + 1 + 1 - 1 = j + 1 := by omega
          rw [e1, e2, extractSeg_single a (i + 1) h3, extractSeg_single b (j + 1) h4,
            chEq_get a b (i + 1) (j + 1) (rlCond_chEq hc)]
        · rw [if_neg hb]
          by_cases hr : 0 < runLen a b alo blo i j
          · have hfacts := runLen_pos_facts a b alo blo i j hr
            rcases hfacts with ⟨g1, g2, g3, g4, g5, g6⟩
            have ihe := ih j hr
            have e1 : i + 1 + 1 - (runLen a b alo blo i j + 1) =
                i + 1 - runLen a b alo blo i j := by omega
            have e2 : j + 1 + 1 - (runLen a b alo blo i j + 1) =
                j + 1 - runLen a b alo blo i j := by omega
            rw [e1, e2]
            have s1 : extractSeg a (i + 1 - runLen a b alo blo i j) (i + 1 + 1) =
                extractSeg a (i + 1 - runLen a b alo blo i j) (i + 1) ++
                  (a.get? (i + 1)).toList :=
              extractSeg_succ a _ (i + 1) (by omega) h3
            have s2 : extractSeg b (j + 1 - runLen a b alo blo i j) (j + 1 + 1) =
                extractSeg b (j + 1 - runLen a b alo blo i j) (j + 1) ++
                  (b.get? (j + 1)).toList :=
              extractSeg_succ b _ (j + 1) (by omega) h4
            rw [s1, s2, ihe, chEq_get a b (i + 1) (j + 1) (rlCond_chEq hc)]
          · have hz : runLen a b alo blo i j = 0 := by omega
            rw [hz]
            have e1 : i + 1 + 1 - (0 + 1) = i + 1 := by omega
            have e2 : j + 1 + 1 - (0 + 1) = j + 1 := by omega
            rw [e1, e2, extractSeg_single a (i + 1) h3, extractSeg_single b (j + 1) h4,
              chEq_get a b (i + 1) (j + 1) (rlCond_chEq hc)]
      · rw [if_neg hc] at h
        omega

/-- The block returned by `flm` is a genuine matching block. -/
def flmMatch (a b : Str) (t : Nat × Nat × Nat) : Prop :=
  extractSeg a t.1 (t.1 + t.2.2) = extractSeg b t.2.1 (t.2.1 + t.2.2)

theorem flm_match (a b : Str) (alo ahi blo bhi : Nat) :
    flmMatch a b (flm a b alo ahi blo bhi) := by
  unfold flm
  apply foldlInv (flmMatch a b)
  · unfold flmMatch
    simp only [Nat.add_zero]
    rw [extractSeg_nil a alo alo (le_refl _), extractSeg_nil b blo blo (le_refl _)]
  · intro best i _ hbest
    apply foldlInv (flmMatch a b)
    · exact hbest
    · intro best' j _ hbest'
      simp only [flmInStep]
      by_cases hup : best'.2.2 < runLen a b alo blo i j
      · rw [if_pos hup]
        have hpos : 0 < runLen a b alo blo i j := by omega
        rcases runLen_pos_facts a b alo blo i j hpos with ⟨g1, g2, g3, g4, g5, g6⟩
        unfold flmMatch
        dsimp only
        have e1 : i + 1 - runLen a b alo blo i j + runLen a b alo blo i j = i + 1 := by omega
        have e2 : j + 1 - runLen a b alo blo i j + runLen a b alo blo i j = j + 1 := by omega
        rw [e1, e2]
        exact runLen_sound a b alo blo i j hpos
      · rw [if_neg hup]
        exact hbest'

theorem matchTotal_full (a b : Str) :
    ∀ fuel alo ahi blo bhi, alo ≤ ahi → blo ≤ bhi → ahi ≤ a.length → bhi ≤ b.length →
      matchTotal a b fuel alo ahi blo bhi = ahi - alo →
      matchTotal a b fuel alo ahi blo bhi = bhi - blo →
      extractSeg a alo ahi = extractSeg b blo bhi := by
  intro fuel
  induction fuel with
  | zero =>
    intro alo ahi blo bhi h1 h2 h3 h4 ha hb
    rw [matchTotal] at ha hb
    rw [extractSeg_nil a alo ahi (by omega), extractSeg_nil b blo bhi (by omega)]
  | succ fuel ih =>
    intro alo ahi blo bhi h1 h2 h3 h4 ha hb
    have hok := flm_ok a b alo ahi blo bhi
    have hmm := flm_match a b alo ahi blo bhi
    rcases hf : flm a b alo ahi blo bhi with ⟨i, j, k⟩
    rw [hf] at hok hmm
    unfold flmOk at hok
    unfold flmMatch at hmm
    dsimp only at hok hmm
    rw [matchTotal, hf] at ha hb
    dsimp only at ha hb
    by_cases hk : k = 0
    · rw [if_pos hk] at ha hb
      rw [extractSeg_nil a alo ahi (by omega), extractSeg_nil b blo bhi (by omega)]
    · rw [if_neg hk] at ha hb
      rcases hok with h0 | ⟨g1, g2, g3, g4⟩
      · exact absurd h0 hk
      · have hL := matchTotal_le a b fuel alo i blo j
        have hR := matchTotal_le a b fuel (i + k) ahi (j + k) bhi
        have eL1 : matchTotal a b fuel alo i blo j = i - alo := by omega
        have eL2 : matchTotal a b fuel alo i blo j = j - blo := by omega
        have eR1 : matchTotal a b fuel (i + k) ahi (j + k) bhi = ahi - (i + k) := by omega
        have eR2 : matchTotal a b fuel (i + k) ahi (j + k) bhi = bhi - (j + k) := by omega
        have ihL := ih alo i blo j (by omega) (by omega) (by omega) (by omega) eL1 eL2
        have ihR := ih (i + k) ahi (j + k) bhi (by omega) (by omega) h3 h4 eR1 eR2
        have sA : extractSeg a alo ahi =
            extractSeg a alo i ++ extractSeg a i (i + k) ++ extractSeg a (i + k) ahi := by
          rw [← extractSeg_split a alo i (i + k) (by omega) (by omega) (by omega)]
          exact extractSeg_split a alo (i + k) ahi (by omega) (by omega) h3
        have sB : extractSeg b blo bhi =
            extractSeg b blo j ++ extractSeg b j (j + k) ++ extractSeg b (j + k) bhi := by
          rw [← extractSeg_split b blo j (j + k) (by omega) (by omega) (by omega)]
          exact extractSeg_split b blo (j + k) bhi (by omega) (by omega) h4
        rw [sA, sB, ihL, ihR, hmm]

theorem seqRatio_eq_one (a b : Str) (ha : a ≠ []) (h : seqRatio a b = 1) : a = b := by
  unfold seqRatio at h
  have hT : ¬(a.length + b.length = 0) := by
    intro h0
    exact ha (List.eq_nil_of_length_eq_zero (by omega))
  rw [if_neg hT] at h
  rw [div_eq_one_iff_eq (by exact_mod_cast hT)] at h
  have h2M : 2 * matchTotal a b (a.length + b.length + 1) 0 a.length 0 b.length =
      a.length + b.length := by exact_mod_cast h
  have hM := matchTotal_le a b (a.length + b.length + 1) 0 a.length 0 b.length
  have hMa : matchTotal a b (a.length + b.length + 1) 0 a.length 0 b.length =
      a.length - 0 := by omega
  have hMb : matchTotal a b (a.length + b.length + 1) 0 a.length 0 b.length =
      b.length - 0 := by omega
  have := matchTotal_full a b (a.length + b.length + 1) 0 a.length 0 b.length
    (Nat.zero_le _) (Nat.zero_le _) (le_refl _) (le_refl _) hMa hMb
  rw [extractSeg_full a, extractSeg_full b] at this
  exact this

theorem simScore_one_imp (a b : Str) (ha : a ≠ []) (h : simScore a b = 1) : a = b := by
  unfold simScore at h
  by_cases hg : a = [] ∨ b = []
  · rw [if_pos hg] at h
    norm_num at h
  · rw [if_neg hg] at h
    dsimp only at h
    have hr1 : seqRatio a b ≤ 1 := seqRatio_le_one a b
    have hj1 : (if tokFin a = ∅ ∨ tokFin b = ∅ then (0 : ℚ)
        else if (tokFin a ∪ tokFin b).card = 0 then 0
        else ((tokFin a ∩ tokFin b).card : ℚ) / (((tokFin a ∪ tokFin b).card : ℚ))) ≤ 1 := by
      split_ifs with w1 w2
      · norm_num
      · norm_num
      · rw [div_le_one (by exact_mod_cast Nat.pos_of_ne_zero w2)]
        have : (tokFin a ∩ tokFin b).card ≤ (tokFin a ∪ tokFin b).card :=
          Finset.card_le_card
            (le_trans (Finset.inter_subset_left) (Finset.subset_union_left))
        exact_mod_cast this
    have hrge : (1 : ℚ) ≤ seqRatio a b := by linarith
    exact seqRatio_eq_one a b ha (le_antisymm hr1 hrge)

theorem simScore_self (s : Str) (hs : s ≠ []) (ht : tokFin s ≠ ∅) : simScore s s = 1 := by
  unfold simScore
  rw [if_neg (by tauto)]
  dsimp only
  rw [seqRatio_self s]
  rw [if_neg (by tauto)]
  have hcard : (tokFin s).card ≠ 0 := by
    intro h0
    exact ht (Finset.card_eq_zero.mp h0)
  rw [Finset.union_self, Finset.inter_self]
  rw [if_neg hcard]
  rw [div_self (by exact_mod_cast hcard)]
  norm_num

theorem combined_nonneg (a b : Str) : 0 ≤ combinedSimilarity a b := by
  unfold combinedSimilarity
  have h1 := seqRatio_nonneg (normalizeTextOld a) (normalizeTextOld b)
  have h2 := jaccardOld_nonneg a b
  linarith

theorem combined_le_one (a b : Str) : combinedSimilarity a b ≤ 1 := by
  unfold combinedSimilarity
  have h1 := seqRatio_le_one (normalizeTextOld a) (normalizeTextOld b)
  have h2 := jaccardOld_le_one a b
  have h3 := seqRatio_nonneg (normalizeTextOld a) (normalizeTextOld b)
  have h4 := jaccardOld_nonneg a b
  linarith

theorem tokenSetOld_nil {a : Str} (h : normalizeTextOld a = []) : tokenSetOld a = ∅ := by
  unfold tokenSetOld
  rw [h]
  rfl

theorem combined_both_empty (a b : Str) (h1 : normalizeTextOld a = [])
    (h2 : normalizeTextOld b = []) : combinedSimilarity a b = 1 := by
  unfold combinedSimilarity
  rw [h1, h2, seqRatio_self]
  have hj : jaccardOld a b = 1 := by
    unfold jaccardOld
    rw [tokenSetOld_nil h1, tokenSetOld_nil h2]
    simp
  rw [hj]
  norm_num

theorem seqRatio_left_nil (b : Str) (hb : b ≠ []) : seqRatio [] b = 0 := by
  unfold seqRatio
  have hT : ¬(([] : Str).length + b.length = 0) := by
    intro h0
    exact hb (List.eq_nil_of_length_eq_zero (by simpa using h0))
  rw [if_neg hT]
  rw [matchTotal_zero_left [] b _ 0 ([] : Str).length 0 b.length (le_refl _)]
  simp

theorem combined_one_empty (a b : Str) (h1 : normalizeTextOld a = [])
    (h2 : normalizeTextOld b ≠ []) :
    combinedSimilarity a b = (2/5) * jaccardOld a b := by
  unfold combinedSimilarity
  rw [h1, seqRatio_left_nil _ h2]
  ring

/-- Eligibility of a master entry for the year-scoped passes: both the candidate
and the entry carry a year and the two agree. -/
def elig (uY : Option Str) (p : Option Str × Str) : Prop :=
  ∃ y, uY = some y ∧ p.1 = some y

theorem eligB_iff (uY ey : Option Str) :
    eligB uY ey = true ↔ ∃ y, uY = some y ∧ ey = some y := by
  cases uY with
  | none => simp [eligB]
  | some y =>
    cases ey with
    | none => simp [eligB]
    | some ye =>
      constructor
      · intro h
        exact ⟨y, rfl, congrArg some (by simpa [eligB] using h)⟩
      · intro ⟨y', hy', hye⟩
        have h1 : y = y' := by injection hy'
        have h2 : ye = y' := by injection hye
        simp [eligB, h1, h2]

theorem bestStep_cases (uY : Option Str) (normU : Str) (st : Option Nat × ℚ)
    (x : Nat × Option Str × Str) :
    bestStep uY normU st x = st ∨
      (elig uY x.2 ∧ st.2 < simScore normU x.2.2 ∧
        bestStep uY normU st x = (some x.1, simScore normU x.2.2)) := by
  unfold bestStep
  by_cases he : eligB uY x.2.1 = true
  · rw [if_pos he]
    dsimp only
    by_cases hup : st.2 < simScore normU x.2.2
    · rw [if_pos hup]
      right
      rcases (eligB_iff uY x.2.1).mp he with ⟨y, hy, hye⟩
      exact ⟨⟨y, hy, hye⟩, hup, rfl⟩
    · rw [if_neg hup]
      left; rfl
  · rw [if_neg he]
    left; rfl

theorem bestStep_elig (uY : Option Str) (normU : Str) (st : Option Nat × ℚ)
    (x : Nat × Option Str × Str) (he : elig uY x.2) :
    simScore normU x.2.2 ≤ (bestStep uY normU st x).2 := by
  unfold bestStep
  rcases he with ⟨y, hy, hye⟩
  rw [if_pos ((eligB_iff uY x.2.1).mpr ⟨y, hy, hye⟩)]
  dsimp only
  by_cases hup : st.2 < simScore normU x.2.2
  · rw [if_pos hup]
  · rw [if_neg hup]
    exact le_of_not_lt hup

theorem bestFold_mono (uY : Option Str) (normU : Str) :
    ∀ (L : List (Nat × Option Str × Str)) (st : Option Nat × ℚ),
      st.2 ≤ (L.foldl (bestStep uY normU) st).2 := by
  intro L
  induction L with
  | nil => intro st; exact le_refl _
  | cons x L ih =>
    intro st
    rw [List.foldl_cons]
    refine le_trans ?_ (ih (bestStep uY normU st x))
    rcases bestStep_cases uY normU st x with h | ⟨_, hlt, h⟩
    · rw [h]
    · rw [h]
      exact le_of_lt hlt

theorem bestFold_le_one (uY : Option Str) (normU : Str) :
    ∀ (L : List (Nat × Option Str × Str)) (st : Option Nat × ℚ),
      st.2 ≤ 1 → (L.foldl (bestStep uY normU) st).2 ≤ 1 := by
  intro L
  induction L with
  | nil => intro st h; exact h
  | cons x L ih =>
    intro st h
    rw [List.foldl_cons]
    refine ih _ ?_
    rcases bestStep_cases uY normU st x with heq | ⟨_, _, heq⟩
    · rw [heq]; exact h
    · rw [heq]
      exact simScore_le_one normU x.2.2

theorem bestFold_ge (uY : Option Str) (normU : Str) :
    ∀ (L : List (Nat × Option Str × Str)) (st : Option Nat × ℚ) (i : Nat)
      (p : Option Str × Str), (i, p) ∈ L → elig uY p →
      simScore normU p.2 ≤ (L.foldl (bestStep uY normU) st).2 := by
  intro L
  induction L with
  | nil => intro st i p hm; cases hm
  | cons x L ih =>
    intro st i p hm he
    rw [List.foldl_cons]
    rcases List.mem_cons.mp hm with heq | hmem
    · subst heq
      exact le_trans (bestStep_elig uY normU st (i, p) he)
        (bestFold_mono uY normU L (bestStep uY normU st (i, p)))
    · exact ih (bestStep uY normU st x) i p hmem he

theorem bestFold_none (uY : Option Str) (normU : Str) :
    ∀ (L : List (Nat × Option Str × Str)) (st : Option Nat × ℚ),
      st.1 = none → st.2 = 0 → (L.foldl (bestStep uY normU) st).1 = none →
      (L.foldl (bestStep uY normU) st).2 = 0 := by
  intro L
  induction L with
  | nil => intro st _ h2 _; exact h2
  | cons x L ih =>
    intro st h1 h2 hres
    rw [List.foldl_cons] at hres ⊢
    rcases bestStep_cases uY normU st x with heq | ⟨_, _, heq⟩
    · rw [heq] at hres ⊢
      exact ih st h1 h2 hres
    · -- an update sets the index to `some`, which can never return to `none`
      exfalso
      have hstays : ∀ (L' : List (Nat × Option Str × Str)) (st' : Option Nat × ℚ),
          st'.1 ≠ none → (L'.foldl (bestStep uY normU) st').1 ≠ none := by
        intro L'
        induction L' with
        | nil => intro st' h; exact h
        | cons x' L' ihs =>
          intro st' h
          rw [List.foldl_cons]
          rcases bestStep_cases uY normU st' x' with hk | ⟨_, _, hk⟩
          · rw [hk]; exact ihs st' h
          · rw [hk]
            exact ihs _ (by simp)
      rw [heq] at hres
      exact hstays L _ (by simp) hres

theorem bestFold_win (uY : Option Str) (normU : Str) :
    ∀ (L : List (Nat × Option Str × Str)) (st : Option Nat × ℚ) (i : Nat),
      (L.foldl (bestStep uY normU) st).1 = some i →
      (st.1 = some i ∧ (L.foldl (bestStep uY normU) st).2 = st.2) ∨
      ∃ p, (i, p) ∈ L ∧ elig uY p ∧
        (L.foldl (bestStep uY normU) st).2 = simScore normU p.2 := by
  intro L
  induction L with
  | nil => intro st i h; exact Or.inl ⟨h, rfl⟩
  | cons x L ih =>
    intro st i h
    rw [List.foldl_cons] at h ⊢
    rcases ih (bestStep uY normU st x) i h with ⟨ha, hb⟩ | ⟨p, hp1, hp2, hp3⟩
    · rcases bestStep_cases uY normU st x with heq | ⟨he, _, heq⟩
      · rw [heq] at ha hb ⊢
        exact Or.inl ⟨ha, hb⟩
      · rw [heq] at ha hb ⊢
        dsimp only at ha hb
        right
        refine ⟨x.2, ?_, he, hb⟩
        have hix : i = x.1 := by
          injection ha.symm
        rw [hix]
        exact List.mem_cons_self _ _
    · exact Or.inr ⟨p, List.mem_cons_of_mem x hp1, hp2, hp3⟩

theorem bestOver_le_one (items : List (Option Str × Str)) (uY : Option Str) (normU : Str) :
    (bestOver items uY normU).2 ≤ 1 :=
  bestFold_le_one uY normU items.enum (none, 0) (by norm_num)

theorem bestOver_ge (items : List (Option Str × Str)) (uY : Option Str) (normU : Str)
    (i : Nat) (p : Option Str × Str) (h : (i, p) ∈ items.enum) (he : elig uY p) :
    simScore normU p.2 ≤ (bestOver items uY normU).2 :=
  bestFold_ge uY normU items.enum (none, 0) i p h he

theorem bestOver_none (items : List (Option Str × Str)) (uY : Option Str) (normU : Str)
    (h : (bestOver items uY normU).1 = none) : (bestOver items uY normU).2 = 0 :=
  bestFold_none uY normU items.enum (none, 0) rfl rfl h

theorem bestOver_win (items : List (Option Str × Str)) (uY : Option Str) (normU : Str)
    (i : Nat) (h : (bestOver items uY normU).1 = some i) :
    ∃ p, (i, p) ∈ items.enum ∧ elig uY p ∧
      (bestOver items uY normU).2 = simScore normU p.2 := by
  rcases bestFold_win uY normU items.enum (none, 0) i h with ⟨ha, _⟩ | hgood
  · cases ha
  · exact hgood

theorem bestOver_nil_norm (items : List (Option Str × Str)) (uY : Option Str) :
    bestOver items uY [] = (none, 0) := by
  unfold bestOver
  have : ∀ (L : List (Nat × Option Str × Str)),
      L.foldl (bestStep uY []) (none, 0) = (none, 0) := by
    intro L
    induction L with
    | nil => rfl
    | cons x L ih =>
      have hx : bestStep uY [] (none, 0) x = (none, 0) := by
        rcases bestStep_cases uY [] (none, 0) x with h | ⟨_, hlt, _⟩
        · exact h
        · rw [simScore_empty [] x.2.2 (Or.inl rfl)] at hlt
          norm_num at hlt
      rw [List.foldl_cons, hx, ih]
  exact this items.enum

theorem updKeyOpt_sum {α : Type} (m : α → Nat) (k : Str) (f : α → Option α)
    (hf : ∀ v v', f v = some v' → m v' = m v + 1) :
    ∀ (xs xs' : List (Str × α)), updKeyOpt k f xs = some xs' →
      (xs'.map (fun e => m e.2)).sum = (xs.map (fun e => m e.2)).sum + 1 := by
  intro xs
  induction xs with
  | nil =>
    intro xs' h
    simp [updKeyOpt] at h
  | cons e rest ih =>
    intro xs' h
    rcases e with ⟨k', v⟩
    rw [updKeyOpt] at h
    by_cases hk : (k' == k) = true
    · rw [if_pos hk] at h
      rcases Option.map_eq_some'.mp h with ⟨v', hv, hxs⟩
      subst hxs
      simp only [List.map_cons, List.sum_cons, hf v v' hv]
      omega
    · rw [if_neg hk] at h
      rcases Option.map_eq_some'.mp h with ⟨r', hr, hxs⟩
      subst hxs
      simp only [List.map_cons, List.sum_cons, ih r' hr]
      omega

theorem bucketsAppend_count (ph cat : Str) (pr : Str × Str) (bks bks' : Buckets)
    (h : bucketsAppend ph cat pr bks = some bks') :
    totalCount bks' = totalCount bks + 1 := by
  unfold bucketsAppend at h
  unfold totalCount
  refine updKeyOpt_sum (fun cats => (cats.map (fun cs => cs.2.length)).sum) ph _ ?_ bks bks' h
  intro cats cats' hc
  refine updKeyOpt_sum (fun l => l.length) cat _ ?_ cats cats' hc
  intro v v' hv
  injection hv with hv
  subst hv
  simp

theorem coreLoop_ok (C : List CEntry) (B : List BEntry) (θ : ℚ) :
    ∀ (us : List Str) (bks : Buckets) (aud : List Row) (bks' : Buckets) (aud' : List Row),
      coreLoop C B θ bks aud us = some (bks', aud') →
      aud' = aud ++ us.map (rowFor C B θ) ∧ totalCount bks' = totalCount bks + us.length := by
  intro us
  induction us with
  | nil =>
    intro bks aud bks' aud' h
    rw [coreLoop] at h
    injection h with h
    injection h with h1 h2
    subst h1
    subst h2
    simp
  | cons u us ih =>
    intro bks aud bks' aud' h
    rw [coreLoop] at h
    rcases hba : bucketsAppend (placeFor C B θ u).1.1 (placeFor C B θ u).1.2
        (placeFor C B θ u).2 bks with _ | bks1
    · rw [hba] at h
      simp at h
    · rw [hba] at h
      dsimp only at h
      rcases ih bks1 (aud ++ [rowFor C B θ u]) bks' aud' h with ⟨h1, h2⟩
      constructor
      · rw [h1, List.append_assoc]
        rfl
      · rw [h2, bucketsAppend_count _ _ _ _ _ hba]
        simp
        omega

theorem updKey_forall {α : Type} (P : Str × α → Prop) (k : Str) (f : α → α) :
    ∀ (xs : List (Str × α)), (∀ x ∈ xs, P x) → (∀ k' v, P (k', v) → P (k', f v)) →
      ∀ x ∈ updKey k f xs, P x := by
  intro xs
  induction xs with
  | nil => intro _ _ x hx; cases hx
  | cons e rest ih =>
    intro hall hstep x hx
    rcases e with ⟨k', v⟩
    rw [updKey] at hx
    by_cases hk : (k' == k) = true
    · rw [if_pos hk] at hx
      rcases List.mem_cons.mp hx with heq | hmem
      · subst heq
        exact hstep k' v (hall (k', v) (List.mem_cons_self _ _))
      · exact hall x (List.mem_cons_of_mem _ hmem)
    · rw [if_neg hk] at hx
      rcases List.mem_cons.mp hx with heq | hmem
      · subst heq
        exact hall (k', v) (List.mem_cons_self _ _)
      · exact ih (fun y hy => hall y (List.mem_cons_of_mem _ hy)) hstep x hmem

theorem seedBuckets_empty (t : Taxo) :
    ∀ pc ∈ seedBuckets t, ∀ cl ∈ pc.2, cl.2 = ([] : List (Str × Str)) := by
  unfold seedBuckets
  intro pc hpc
  refine updKey_forall (fun pc => ∀ cl ∈ pc.2, cl.2 = ([] : List (Str × Str))) _ _ _ ?_ ?_ pc hpc
  · intro x hx
    by_cases hu : hasKey (t.map (fun pc =>
        (pc.1, pc.2.map (fun cs => (cs.1, ([] : List (Str × Str))))))) uncatKey.1 = true
    · rw [if_pos hu] at hx
      rcases List.mem_map.mp hx with ⟨pc0, _, hmap⟩
      subst hmap
      intro cl hcl
      rcases List.mem_map.mp hcl with ⟨cs0, _, hmap2⟩
      subst hmap2
      rfl
    · rw [if_neg hu] at hx
      rcases List.mem_append.mp hx with hm | hm
      · rcases List.mem_map.mp hm with ⟨pc0, _, hmap⟩
        subst hmap
        intro cl hcl
        rcases List.mem_map.mp hcl with ⟨cs0, _, hmap2⟩
        subst hmap2
        rfl
      · rcases List.mem_singleton.mp hm with heq
        subst heq
        intro cl hcl
        cases hcl
  · intro k' v hv
    by_cases hc : hasKey v uncatKey.2 = true
    · rw [if_pos hc]
      exact hv
    · rw [if_neg hc]
      intro cl hcl
      rcases List.mem_append.mp hcl with hm | hm
      · exact hv cl hm
      · rcases List.mem_singleton.mp hm with heq
        subst heq
        rfl

theorem totalCount_seed (t : Taxo) : totalCount (seedBuckets t) = 0 := by
  unfold totalCount
  apply List.sum_eq_zero
  intro x hx
  rcases List.mem_map.mp hx with ⟨pc, hpc, hmap⟩
  subst hmap
  apply List.sum_eq_zero
  intro y hy
  rcases List.mem_map.mp hy with ⟨cl, hcl, hmap2⟩
  subst hmap2
  rw [seedBuckets_empty t pc hpc cl hcl]
  rfl

theorem categorizeCore_ok (tC : Taxo) (tB : Option Taxo) (us : List Str) (θ : ℚ)
    (bks : Buckets) (aud : List Row) (h : categorizeCore tC tB us θ = some (bks, aud)) :
    aud = us.map (rowFor (buildC tC) (bFlat tB) θ) ∧ totalCount bks = us.length := by
  unfold categorizeCore at h
  rcases coreLoop_ok (buildC tC) (bFlat tB) θ us (seedBuckets tC) [] bks aud h with ⟨h1, h2⟩
  constructor
  · rw [h1]
    rfl
  · rw [h2, totalCount_seed]
    omega

theorem categorizeWM_ok (tC : Taxo) (tB : Option Taxo) (us : List Str) (θ : ℚ)
    (bks : Buckets) (aud : List Row) (h : categorizeWithMaster tC tB us θ = some (bks, aud)) :
    ∃ bks₀, categorizeCore tC tB us θ = some (bks₀, aud) ∧ bks = sortBuckets bks₀ := by
  unfold categorizeWithMaster at h
  rcases hc : categorizeCore tC tB us θ with _ | ⟨b0, a0⟩
  · rw [hc] at h
    simp at h
  · rw [hc] at h
    simp only [Option.map_some'] at h
    have h2 : (sortBuckets b0, a0) = (bks, aud) := Option.some.inj h
    have hb : sortBuckets b0 = bks := congrArg Prod.fst h2
    have ha : a0 = aud := congrArg Prod.snd h2
    subst ha
    exact ⟨b0, rfl, hb.symm⟩

theorem mem_insYD (x p : Str × Str) : ∀ l, x ∈ insYD p l ↔ x = p ∨ x ∈ l := by
  intro l
  induction l with
  | nil => simp [insYD]
  | cons q qs ih =>
    rw [insYD]
    by_cases hc : yearAsInt q.1 ≤ yearAsInt p.1
    · rw [if_pos hc]
      exact List.mem_cons
    · rw [if_neg hc]
      rw [List.mem_cons, ih, List.mem_cons]
      tauto

theorem pairwise_insYD (p : Str × Str) :
    ∀ l, List.Pairwise (fun A B => yearAsInt B.1 ≤ yearAsInt A.1) l →
      List.Pairwise (fun A B => yearAsInt B.1 ≤ yearAsInt A.1) (insYD p l) := by
  intro l
  induction l with
  | nil =>
    intro _
    simp [insYD]
  | cons q qs ih =>
    intro h
    rcases List.pairwise_cons.mp h with ⟨hq, hqs⟩
    rw [insYD]
    by_cases hc : yearAsInt q.1 ≤ yearAsInt p.1
    · rw [if_pos hc]
      refine List.pairwise_cons.mpr ⟨?_, h⟩
      intro r hr
      rcases List.mem_cons.mp hr with heq | hmem
      · subst heq; exact hc
      · exact le_trans (hq r hmem) hc
    · rw [if_neg hc]
      refine List.pairwise_cons.mpr ⟨?_, ih hqs⟩
      intro r hr
      rcases (mem_insYD r p qs).mp hr with heq | hmem
      · subst heq
        exact le_of_lt (lt_of_not_le hc)
      · exact hq r hmem

theorem sortYearDesc_pairwise :
    ∀ l, List.Pairwise (fun A B => yearAsInt B.1 ≤ yearAsInt A.1) (sortYearDesc l) := by
  intro l
  induction l with
  | nil => simp [sortYearDesc]
  | cons p ps ih =>
    rw [sortYearDesc]
    exact pairwise_insYD p _ ih

theorem sortYearDesc_chain (l : List (Str × Str)) : bucketSortedDesc (sortYearDesc l) :=
  (sortYearDesc_pairwise l).chain'

theorem filter_insYD (k : Int) (p : Str × Str) :
    ∀ l, (insYD p l).filter (fun q => yearAsInt q.1 == k) =
      if (yearAsInt p.1 == k) = true then p :: l.filter (fun q => yearAsInt q.1 == k)
      else l.filter (fun q => yearAsInt q.1 == k) := by
  intro l
  induction l with
  | nil =>
    rw [insYD, List.filter_cons]
  | cons q qs ih =>
    rw [insYD]
    by_cases hc : yearAsInt q.1 ≤ yearAsInt p.1
    · rw [if_pos hc]
      by_cases hp : (yearAsInt p.1 == k) = true
      · rw [if_pos hp, List.filter_cons, if_pos hp]
      · rw [if_neg hp, List.filter_cons, if_neg hp]
    · rw [if_neg hc]
      have hpq : yearAsInt p.1 < yearAsInt q.1 := lt_of_not_le hc
      by_cases hp : (yearAsInt p.1 == k) = true
      · rw [if_pos hp]
        have hk : yearAsInt p.1 = k := beq_iff_eq.mp hp
        have hq : ¬((yearAsInt q.1 == k) = true) := by
          intro hq0
          have := beq_iff_eq.mp hq0
          omega
        rw [List.filter_cons, if_neg hq, List.filter_cons, if_neg hq, ih, if_pos hp]
      · rw [if_neg hp]
        rw [List.filter_cons, List.filter_cons]
        by_cases hq : (yearAsInt q.1 == k) = true
        · rw [if_pos hq, if_pos hq, ih, if_neg hp]
        · rw [if_neg hq, if_neg hq, ih, if_neg hp]

theorem sortYearDesc_filter (k : Int) :
    ∀ l, (sortYearDesc l).filter (fun q => yearAsInt q.1 == k) =
      l.filter (fun q => yearAsInt q.1 == k) := by
  intro l
  induction l with
  | nil => rfl
  | cons p ps ih =>
    rw [sortYearDesc, filter_insYD, List.filter_cons]
    by_cases hp : (yearAsInt p.1 == k) = true
    · rw [if_pos hp, if_pos hp, ih]
    · rw [if_neg hp, if_neg hp, ih]

theorem insYD_length (p : Str × Str) : ∀ l, (insYD p l).length = l.length + 1 := by
  intro l
  induction l with
  | nil => rfl
  | cons q qs ih =>
    rw [insYD]
    by_cases hc : yearAsInt q.1 ≤ yearAsInt p.1
    · rw [if_pos hc]
      rfl
    · rw [if_neg hc]
      simp [ih]

theorem sortYearDesc_length : ∀ l, (sortYearDesc l).length = l.length := by
  intro l
  induction l with
  | nil => rfl
  | cons p ps ih =>
    rw [sortYearDesc, insYD_length, ih]
    rfl

theorem totalCount_sortBuckets (bks : Buckets) : totalCount (sortBuckets bks) = totalCount bks := by
  unfold totalCount sortBuckets
  rw [List.map_map]
  congr 1
  apply List.map_congr_left
  intro pc _
  dsimp only [Function.comp]
  rw [List.map_map]
  congr 1
  apply List.map_congr_left
  intro cl _
  dsimp only [Function.comp]
  exact sortYearDesc_length cl.2

theorem decideB_not_emptyU (B : List BEntry) (θ : ℚ) (uY : Option Str) (normU : Str) :
    decideB B θ uY normU ≠ .emptyU := by
  unfold decideB
  by_cases hB : B.isEmpty = true
  · rw [if_pos hB]
    intro h
    cases h
  · rw [if_neg hB]
    dsimp only
    by_cases hc : (bestOver (B.map (fun e => (e.year, e.norm))) uY normU).1.isSome ∧
        θ ≤ (bestOver (B.map (fun e => (e.year, e.norm))) uY normU).2
    · rw [if_pos hc]
      intro h
      cases h
    · rw [if_neg hc]
      intro h
      cases h

theorem decideB_not_hit1 (B : List BEntry) (θ : ℚ) (uY : Option Str) (normU : Str)
    (i : Nat) (sc : ℚ) : decideB B θ uY normU ≠ .hit1 i sc := by
  unfold decideB
  by_cases hB : B.isEmpty = true
  · rw [if_pos hB]
    intro h
    cases h
  · rw [if_neg hB]
    dsimp only
    by_cases hc : (bestOver (B.map (fun e => (e.year, e.norm))) uY normU).1.isSome ∧
        θ ≤ (bestOver (B.map (fun e => (e.year, e.norm))) uY normU).2
    · rw [if_pos hc]
      intro h
      cases h
    · rw [if_neg hc]
      intro h
      cases h

theorem decideFor_emptyU_iff (C : List CEntry) (B : List BEntry) (θ : ℚ) (u : Str) :
    decideFor C B θ u = .emptyU ↔ trimS (stripLeadingYear u) = [] := by
  unfold decideFor
  dsimp only
  by_cases hg : (trimS (stripLeadingYear u)).isEmpty = true
  · rw [if_pos hg]
    simp only [List.isEmpty_iff] at hg
    simp [hg]
  · rw [if_neg hg]
    simp only [List.isEmpty_iff] at hg
    constructor
    · intro h
      by_cases hc : (bestOver (C.map (fun e => (e.year, e.norm))) (extractYear u)
          (normalizeAfterYear u)).1.isSome ∧
          θ ≤ (bestOver (C.map (fun e => (e.year, e.norm))) (extractYear u)
            (normalizeAfterYear u)).2
      · rw [if_pos hc] at h
        cases h
      · rw [if_neg hc] at h
        exact absurd h (decideB_not_emptyU _ _ _ _)
    · intro h
      exact absurd h hg

theorem decideFor_hit1_inv (C : List CEntry) (B : List BEntry) (θ : ℚ) (u : Str)
    (i : Nat) (sc : ℚ) (h : decideFor C B θ u = .hit1 i sc) :
    trimS (stripLeadingYear u) ≠ [] ∧
    bestOver (C.map (fun e => (e.year, e.norm))) (extractYear u) (normalizeAfterYear u) =
      (some i, sc) ∧ θ ≤ sc := by
  unfold decideFor at h
  dsimp only at h
  by_cases hg : (trimS (stripLeadingYear u)).isEmpty = true
  · rw [if_pos hg] at h
    cases h
  · rw [if_neg hg] at h
    by_cases hc : (bestOver (C.map (fun e => (e.year, e.norm))) (extractYear u)
        (normalizeAfterYear u)).1.isSome ∧
        θ ≤ (bestOver (C.map (fun e => (e.year, e.norm))) (extractYear u)
          (normalizeAfterYear u)).2
    · rw [if_pos hc] at h
      rcases hc with ⟨hs, hθ⟩
      rcases Option.isSome_iff_exists.mp hs with ⟨x, hx⟩
      injection h with h1 h2
      refine ⟨by simpa [List.isEmpty_iff] using hg, ?_, by rw [← h2]; exact hθ⟩
      have : (bestOver (C.map (fun e => (e.year, e.norm))) (extractYear u)
          (normalizeAfterYear u)).1 = some i := by
        rw [hx] at h1 ⊢
        rw [Option.getD_some] at h1
        rw [h1]
      exact Prod.ext this h2
    · rw [if_neg hc] at h
      exact absurd h (decideB_not_hit1 _ _ _ _ _ _)

theorem decideB_hit2_inv (B : List BEntry) (θ : ℚ) (uY : Option Str) (normU : Str)
    (i : Nat) (sc : ℚ) (h : decideB B θ uY normU = .hit2 i sc) :
    B ≠ [] ∧ bestOver (B.map (fun e => (e.year, e.norm))) uY normU = (some i, sc) ∧
    θ ≤ sc := by
  unfold decideB at h
  by_cases hB : B.isEmpty = true
  · rw [if_pos hB] at h
    cases h
  · rw [if_neg hB] at h
    dsimp only at h
    by_cases hc : (bestOver (B.map (fun e => (e.year, e.norm))) uY normU).1.isSome ∧
        θ ≤ (bestOver (B.map (fun e => (e.year, e.norm))) uY normU).2
    · rw [if_pos hc] at h
      rcases hc with ⟨hs, hθ⟩
      rcases Option.isSome_iff_exists.mp hs with ⟨x, hx⟩
      injection h with h1 h2
      refine ⟨by simpa [List.isEmpty_iff] using hB, ?_, by rw [← h2]; exact hθ⟩
      have : (bestOver (B.map (fun e => (e.year, e.norm))) uY normU).1 = some i := by
        rw [hx] at h1 ⊢
        rw [Option.getD_some] at h1
        rw [h1]
      exact Prod.ext this h2
    · rw [if_neg hc] at h
      cases h

theorem decideFor_hit2_inv (C : List CEntry) (B : List BEntry) (θ : ℚ) (u : Str)
    (i : Nat) (sc : ℚ) (h : decideFor C B θ u = .hit2 i sc) :
    trimS (stripLeadingYear u) ≠ [] ∧ B ≠ [] ∧
    bestOver (B.map (fun e => (e.year, e.norm))) (extractYear u) (normalizeAfterYear u) =
      (some i, sc) ∧ θ ≤ sc := by
  unfold decideFor at h
  dsimp only at h
  by_cases hg : (trimS (stripLeadingYear u)).isEmpty = true
  · rw [if_pos hg] at h
    cases h
  · rw [if_neg hg] at h
    have hB : decideB B θ (extractYear u) (normalizeAfterYear u) = .hit2 i sc := by
      by_cases hc : (bestOver (C.map (fun e => (e.year, e.norm))) (extractYear u)
          (normalizeAfterYear u)).1.isSome ∧
          θ ≤ (bestOver (C.map (fun e => (e.year, e.norm))) (extractYear u)
            (normalizeAfterYear u)).2
      · rw [if_pos hc] at h
        cases h
      · rw [if_neg hc] at h
        exact h
    rcases decideB_hit2_inv B θ _ _ i sc hB with ⟨h1, h2, h3⟩
    exact ⟨by simpa [List.isEmpty_iff] using hg, h1, h2, h3⟩

theorem decideFor_hit1_intro (C : List CEntry) (B : List BEntry) (θ : ℚ) (u : Str)
    (i : Nat) (sc : ℚ) (hafter : trimS (stripLeadingYear u) ≠ [])
    (hp : bestOver (C.map (fun e => (e.year, e.norm))) (extractYear u)
      (normalizeAfterYear u) = (some i, sc))
    (hθ : θ ≤ sc) : decideFor C B θ u = .hit1 i sc := by
  unfold decideFor
  dsimp only
  rw [if_neg (by simpa [List.isEmpty_iff] using hafter)]
  rw [if_pos (by rw [hp]; exact ⟨rfl, hθ⟩)]
  rw [hp]
  rfl

theorem decideFor_hit2_intro (C : List CEntry) (B : List BEntry) (θ : ℚ) (u : Str)
    (i : Nat) (sc : ℚ) (hafter : trimS (stripLeadingYear u) ≠ [])
    (hp1 : (bestOver (C.map (fun e => (e.year, e.norm))) (extractYear u)
        (normalizeAfterYear u)).1 = none ∨
      (bestOver (C.map (fun e => (e.year, e.norm))) (extractYear u)
        (normalizeAfterYear u)).2 < θ)
    (hB : B ≠ [])
    (hp2 : bestOver (B.map (fun e => (e.year, e.norm))) (extractYear u)
      (normalizeAfterYear u) = (some i, sc))
    (hθ : θ ≤ sc) : decideFor C B θ u = .hit2 i sc := by
  unfold decideFor
  dsimp only
  rw [if_neg (by simpa [List.isEmpty_iff] using hafter)]
  rw [if_neg (by
    rintro ⟨hs, hle⟩
    rcases hp1 with hn | hlt
    · rw [hn] at hs
      cases hs
    · exact absurd hle (not_le_of_lt hlt))]
  unfold decideB
  rw [if_neg (by simpa [List.isEmpty_iff] using hB)]
  dsimp only
  rw [if_pos (by rw [hp2]; exact ⟨rfl, hθ⟩)]
  rw [hp2]
  rfl

theorem decideFor_norm_nil (C : List CEntry) (B : List BEntry) (θ : ℚ) (u : Str)
    (h : normalizeAfterYear u = []) :
    decideFor C B θ u =
      (if (trimS (stripLeadingYear u)).isEmpty then MDecision.emptyU else .nomatch) := by
  unfold decideFor
  dsimp only
  by_cases hg : (trimS (stripLeadingYear u)).isEmpty = true
  · rw [if_pos hg, if_pos hg]
  · rw [if_neg hg, if_neg hg]
    rw [h, bestOver_nil_norm]
    rw [if_neg (by rintro ⟨hs, _⟩; cases hs)]
    unfold decideB
    by_cases hB : B.isEmpty = true
    · rw [if_pos hB]
    · rw [if_neg hB]
      dsimp only
      rw [bestOver_nil_norm]
      rw [if_neg (by rintro ⟨hs, _⟩; cases hs)]

theorem trimS_nil_allWS {l : Str} (h : trimS l = []) : ∀ c ∈ l, isWS c = true := by
  intro c hc
  by_contra hns
  have h1 : c ∈ l.dropWhile isWS := by
    have := @List.takeWhile_append_dropWhile Char isWS l
    rcases List.mem_append.mp (by rw [this]; exact hc) with hm | hm
    · exact absurd (List.mem_takeWhile_imp hm) hns
    · exact hm
  have h2 : c ∈ (l.dropWhile isWS).reverse.dropWhile isWS := by
    have := @List.takeWhile_append_dropWhile Char isWS ((l.dropWhile isWS).reverse)
    rcases List.mem_append.mp (by rw [this]; exact List.mem_reverse.mpr h1) with hm | hm
    · exact absurd (List.mem_takeWhile_imp hm) hns
    · exact hm
  have h3 : c ∈ trimS l := by
    unfold trimS
    exact List.mem_reverse.mpr h2
  rw [h] at h3
  cases h3

theorem isWS_toLower {c : Char} (h : isWS c = true) : Char.toLower c = c := by
  unfold isWS at h
  rcases Bool.or_eq_true_iff.mp h with h1 | h1
  · rcases Bool.or_eq_true_iff.mp h1 with h2 | h2
    · rcases Bool.or_eq_true_iff.mp h2 with h3 | h3
      · rw [beq_iff_eq.mp h3]; decide
      · rw [beq_iff_eq.mp h3]; decide
    · rw [beq_iff_eq.mp h2]; decide
  · rw [beq_iff_eq.mp h1]; decide

theorem mem_goX : ∀ (l p : Str) (c : Char), c ∈ goX p l → c ∈ p ∨ c ∈ l := by
  intro l
  induction l with
  | nil =>
    intro p c hc
    rw [goX] at hc
    unfold flushX at hc
    split_ifs at hc
    · cases hc
    · exact Or.inl (List.mem_reverse.mp hc)
  | cons d ds ih =>
    intro p c hc
    rw [goX] at hc
    by_cases hx : isXC d = true
    · rw [if_pos hx] at hc
      rcases ih (d :: p) c hc with hm | hm
      · rcases List.mem_cons.mp hm with heq | hmem
        · subst heq
          exact Or.inr (List.mem_cons_self _ _)
        · exact Or.inl hmem
      · exact Or.inr (List.mem_cons_of_mem _ hm)
    · rw [if_neg hx] at hc
      rcases List.mem_append.mp hc with hm | hm
      · unfold flushX at hm
        split_ifs at hm
        · cases hm
        · exact Or.inl (List.mem_reverse.mp hm)
      · rcases List.mem_cons.mp hm with heq | hmem
        · subst heq
          exact Or.inr (List.mem_cons_self _ _)
        · rcases ih [] c hmem with hm2 | hm2
          · cases hm2
          · exact Or.inr (List.mem_cons_of_mem _ hm2)

theorem cwGo_allWS : ∀ (l : Str), (∀ c ∈ l, isWS c = true) → ∀ st p, cwGo st p l = [] := by
  intro l
  induction l with
  | nil => intro _ st p; rfl
  | cons c cs ih =>
    intro h st p
    rw [cwGo]
    rw [if_pos (h c (List.mem_cons_self _ _))]
    exact ih (fun d hd => h d (List.mem_cons_of_mem _ hd)) st true

theorem normalizeAfterYear_nil_of_after {u : Str} (h : trimS (stripLeadingYear u) = []) :
    normalizeAfterYear u = [] := by
  unfold normalizeAfterYear cleanST
  apply cwGo_allWS
  intro c hc
  have hp : c ∈ removeXRuns (lowerS (stripLeadingYear u)) := List.mem_of_mem_filter hc
  rcases mem_goX (lowerS (stripLeadingYear u)) [] c hp with hm | hm
  · cases hm
  · rcases List.mem_map.mp hm with ⟨d, hd, hmap⟩
    have hws := trimS_nil_allWS h d hd
    rw [← hmap, isWS_toLower hws]
    exact hws

theorem cwGo_false_head : ∀ (l : Str) (p : Bool),
    cwGo false p l = [] ∨ ∃ c cs, cwGo false p l = c :: cs ∧ isWS c = false := by
  intro l
  induction l with
  | nil => intro p; exact Or.inl rfl
  | cons c cs ih =>
    intro p
    rw [cwGo]
    by_cases hw : isWS c = true
    · rw [if_pos hw]
      exact ih true
    · rw [if_neg hw]
      have hfp : (false && p) = false := by simp
      rw [hfp]
      rw [if_neg (by simp)]
      exact Or.inr ⟨c, cwGo true false cs, rfl, Bool.not_eq_true _ ▸ (by simpa using hw)⟩

theorem wordsGo_acc_ne : ∀ (l : Str) (acc : Str), acc ≠ [] → wordsGo acc l ≠ [] := by
  intro l
  induction l with
  | nil =>
    intro acc h
    rw [wordsGo]
    rw [if_neg (by simpa [List.isEmpty_iff] using h)]
    simp
  | cons c cs ih =>
    intro acc h
    rw [wordsGo]
    by_cases hw : isWS c = true
    · rw [if_pos hw]
      rw [if_neg (by simpa [List.isEmpty_iff] using h)]
      simp
    · rw [if_neg hw]
      exact ih (c :: acc) (by simp)

theorem wordsS_cons_ne {c : Char} {cs : Str} (h : isWS c = false) : wordsS (c :: cs) ≠ [] := by
  unfold wordsS
  rw [wordsGo]
  rw [if_neg (by simp [h])]
  exact wordsGo_acc_ne cs [c] (by simp)

theorem tokFin_norm_ne {u : Str} (h : normalizeAfterYear u ≠ []) :
    tokFin (normalizeAfterYear u) ≠ ∅ := by
  have hshape := cwGo_false_head (removePunct (removeXRuns (lowerS (stripLeadingYear u)))) false
  unfold normalizeAfterYear cleanST at h ⊢
  rcases hshape with hnil | ⟨c, cs, heq, hns⟩
  · exact absurd hnil h
  · rw [heq]
    unfold tokFin
    have hw := @wordsS_cons_ne c cs hns
    rcases hww : wordsS (c :: cs) with _ | ⟨w, ws⟩
    · exact absurd hww hw
    · exact Finset.ne_empty_of_mem (List.mem_toFinset.mpr (List.mem_cons_self w ws))

theorem cAt_get {C : List CEntry} {i : Nat} {e : CEntry} (h : C.get? i = some e) :
    cAt C i = e := by
  unfold cAt
  rw [List.getD_eq_get? C i, h]
  rfl

theorem bAt_get {B : List BEntry} {i : Nat} {e : BEntry} (h : B.get? i = some e) :
    bAt B i = e := by
  unfold bAt
  rw [List.getD_eq_get? B i, h]
  rfl

theorem bestOver_win_map {α : Type} (f : α → Option Str × Str) (l : List α)
    (uY : Option Str) (normU : Str) (i : Nat)
    (h : (bestOver (l.map f) uY normU).1 = some i) :
    ∃ e, l.get? i = some e ∧ elig uY (f e) ∧
      (bestOver (l.map f) uY normU).2 = simScore normU (f e).2 := by
  rcases bestOver_win (l.map f) uY normU i h with ⟨p, hmem, he, hsc⟩
  have hget : (l.map f).get? i = some p := by
    have := List.mem_enum_iff_get?.mp hmem
    exact this
  rcases Option.map_eq_some'.mp (by rw [← List.get?_map]; exact hget) with ⟨e, hge, hfe⟩
  exact ⟨e, hge, by rw [hfe]; exact he, by rw [hfe]; exact hsc⟩

/-- Shape of every study buffer: four leading digits, then end of string or a
non-word character (the `\b` boundary), with no leading whitespace. -/
def yearHead (c : Str) : Prop :=
  ∃ d1 d2 d3 d4 r, c = d1 :: d2 :: d3 :: d4 :: r ∧
    d1.isDigit = true ∧ d2.isDigit = true ∧ d3.isDigit = true ∧ d4.isDigit = true ∧
    (r = [] ∨ ∃ c0 r2, r = c0 :: r2 ∧ isWordC c0 = false)

theorem isDigit_not_ws {c : Char} (h : c.isDigit = true) : isWS c = false := by
  by_contra hws
  rw [Bool.not_eq_false] at hws
  unfold isWS at hws
  rcases Bool.or_eq_true_iff.mp hws with h1 | h1
  · rcases Bool.or_eq_true_iff.mp h1 with h2 | h2
    · rcases Bool.or_eq_true_iff.mp h2 with h3 | h3
      · rw [beq_iff_eq.mp h3] at h; cases h
      · rw [beq_iff_eq.mp h3] at h; cases h
    · rw [beq_iff_eq.mp h2] at h; cases h
  · rw [beq_iff_eq.mp h1] at h; cases h

theorem yearHead_yearLine {c : Str} (h : yearHead c) : yearLineMatch c = true := by
  rcases h with ⟨d1, d2, d3, d4, r, hc, h1, h2, h3, h4, hb⟩
  subst hc
  unfold yearLineMatch
  rw [List.dropWhile_cons, if_neg (by rw [isDigit_not_ws h1]; simp)]
  rcases hb with hr | ⟨c0, r2, hr, hw⟩
  · subst hr
    simp [h1, h2, h3, h4]
  · subst hr
    simp [h1, h2, h3, h4, hw]

theorem prefix_head {r' r : Str} (hp : r' <+: r) (hne : r' ≠ []) :
    ∃ c0 t1 t2, r' = c0 :: t1 ∧ r = c0 :: t2 := by
  rcases hp with ⟨t, ht⟩
  rcases r' with _ | ⟨c0, t1⟩
  · exact absurd rfl hne
  · exact ⟨c0, t1, t1 ++ t, rfl, by rw [← ht]; rfl⟩

theorem yearHead_of_line {l : Str} (h : yearLineMatch l = true) : yearHead (trimS l) := by
  unfold yearLineMatch at h
  rcases hd : l.dropWhile isWS with _ | ⟨d1, m1⟩
  · rw [hd] at h
    cases h
  rcases m1 with _ | ⟨d2, m2⟩
  · rw [hd] at h
    cases h
  rcases m2 with _ | ⟨d3, m3⟩
  · rw [hd] at h
    cases h
  rcases m3 with _ | ⟨d4, r⟩
  · rw [hd] at h
    cases h
  rw [hd] at h
  simp only [Bool.and_eq_true] at h
  rcases h with ⟨⟨⟨⟨h1, h2⟩, h3⟩, h4⟩, hb⟩
  have htrim : trimS l = ((d1 :: d2 :: d3 :: d4 :: r).reverse.dropWhile isWS).reverse := by
    unfold trimS
    rw [hd]
  have hrev : (d1 :: d2 :: d3 :: d4 :: r).reverse = r.reverse ++ [d4, d3, d2, d1] := by
    simp
  rw [hrev] at htrim
  rw [List.dropWhile_append] at htrim
  by_cases hre : (r.reverse.dropWhile isWS).isEmpty = true
  · rw [if_pos hre] at htrim
    have : [d4, d3, d2, d1].dropWhile isWS = [d4, d3, d2, d1] := by
      rw [List.dropWhile_cons, if_neg (by rw [isDigit_not_ws h4]; simp)]
    rw [this] at htrim
    refine ⟨d1, d2, d3, d4, [], by simpa using htrim, h1, h2, h3, h4, Or.inl rfl⟩
  · rw [if_neg hre] at htrim
    rcases r with _ | ⟨c0, r2⟩
    · exfalso
      simp at hre
    · have hw : isWordC c0 = false := by simpa using hb
      have hX : ((c0 :: r2).reverse.dropWhile isWS).reverse <+: (c0 :: r2) := by
        have hsuf : (c0 :: r2).reverse.dropWhile isWS <:+ (c0 :: r2).reverse :=
          List.dropWhile_suffix isWS
        rw [← List.reverse_reverse ((c0 :: r2).reverse.dropWhile isWS)] at hsuf
        exact List.reverse_suffix.mp hsuf
      have hXne : ((c0 :: r2).reverse.dropWhile isWS).reverse ≠ [] := by
        intro h0
        rw [List.reverse_eq_nil_iff] at h0
        rw [h0] at hre
        simp at hre
      rcases prefix_head hX hXne with ⟨c0', t1, t2, hr', hrr⟩
      have hc0 : c0' = c0 := by injection hrr.symm
      rw [htrim, List.reverse_append, hr']
      refine ⟨d1, d2, d3, d4, c0' :: t1, by simp, h1, h2, h3, h4,
        Or.inr ⟨c0', t1, rfl, ?_⟩⟩
      rw [hc0]
      exact hw

theorem isWordC_space : isWordC ' ' = false := by decide

theorem yearHead_append {c : Str} (h : yearHead c) (t : Str) : yearHead (c ++ ' ' :: t) := by
  rcases h with ⟨d1, d2, d3, d4, r, hc, h1, h2, h3, h4, hb⟩
  subst hc
  refine ⟨d1, d2, d3, d4, r ++ ' ' :: t, by simp, h1, h2, h3, h4, ?_⟩
  rcases hb with hr | ⟨c0, r2, hr, hw⟩
  · subst hr
    exact Or.inr ⟨' ', t, rfl, isWordC_space⟩
  · subst hr
    exact Or.inr ⟨c0, r2 ++ ' ' :: t, rfl, hw⟩

theorem cwGo_true_true_shape : ∀ (l : Str),
    cwGo true true l = [] ∨ ∃ t, cwGo true true l = ' ' :: t := by
  intro l
  induction l with
  | nil => exact Or.inl rfl
  | cons c cs ih =>
    rw [cwGo]
    by_cases hw : isWS c = true
    · rw [if_pos hw]
      exact ih
    · rw [if_neg hw]
      rw [if_pos (by simp)]
      exact Or.inr ⟨c :: cwGo true false cs, rfl⟩

theorem cwGo_not_ws {c : Char} {cs : Str} (h : isWS c = false) (st : Bool) :
    cwGo st false (c :: cs) = c :: cwGo true false cs := by
  rw [cwGo]
  rw [if_neg (by simp [h])]
  rw [if_neg (by simp)]

theorem yearHead_clean {c : Str} (h : yearHead c) : yearLineMatch (cleanST c) = true := by
  rcases h with ⟨d1, d2, d3, d4, r, hc, h1, h2, h3, h4, hb⟩
  subst hc
  unfold cleanST
  rw [cwGo_not_ws (isDigit_not_ws h1) false, cwGo_not_ws (isDigit_not_ws h2) true,
    cwGo_not_ws (isDigit_not_ws h3) true, cwGo_not_ws (isDigit_not_ws h4) true]
  unfold yearLineMatch
  rw [List.dropWhile_cons, if_neg (by rw [isDigit_not_ws h1]; simp)]
  rcases hb with hr | ⟨c0, r2, hr, hw⟩
  · subst hr
    simp [h1, h2, h3, h4, cwGo]
  · subst hr
    by_cases hws : isWS c0 = true
    · rw [cwGo]
      rw [if_pos hws]
      rcases cwGo_true_true_shape r2 with hz | ⟨t, ht⟩
      · rw [hz]
        simp [h1, h2, h3, h4]
      · rw [ht]
        simp [h1, h2, h3, h4, isWordC_space]
    · rw [cwGo_not_ws (by simpa using hws) true]
      simp [h1, h2, h3, h4, hw]

theorem puAux_year : ∀ (lines : List Str) (cur : Option Str),
    (∀ c, cur = some c → yearHead c) → ∀ s ∈ puAux cur lines, yearLineMatch s = true := by
  intro lines
  induction lines with
  | nil =>
    intro cur hcur s hs
    rw [puAux] at hs
    rcases hc : cur with _ | c
    · rw [hc] at hs
      cases hs
    · rw [hc] at hs
      unfold puFlush at hs
      rcases List.mem_singleton.mp hs with heq
      subst heq
      exact yearHead_clean (hcur c hc)
  | cons raw rest ih =>
    intro cur hcur s hs
    rw [puAux.eq_def] at hs
    dsimp only at hs
    by_cases hbl : (trimS (cutL raw)).isEmpty = true
    · rw [if_pos hbl] at hs
      rcases List.mem_append.mp hs with hm | hm
      · rcases hc : cur with _ | c
        · rw [hc] at hm
          cases hm
        · rw [hc] at hm
          rcases List.mem_singleton.mp hm with heq
          subst heq
          exact yearHead_clean (hcur c hc)
      · by_cases hhit : hitB raw = true
        · rw [if_pos hhit] at hm
          cases hm
        · rw [if_neg hhit] at hm
          exact ih none (fun c hc => by cases hc) s hm
    · rw [if_neg hbl] at hs
      by_cases hyl : yearLineMatch (cutL raw) = true
      · rw [if_pos hyl] at hs
        rcases List.mem_append.mp hs with hm | hm
        · rcases hc : cur with _ | c
          · rw [hc] at hm
            cases hm
          · rw [hc] at hm
            rcases List.mem_singleton.mp hm with heq
            subst heq
            exact yearHead_clean (hcur c hc)
        · by_cases hhit : hitB raw = true
          · rw [if_pos hhit] at hm
            rcases List.mem_singleton.mp hm with heq
            subst heq
            exact yearHead_clean (yearHead_of_line hyl)
          · rw [if_neg hhit] at hm
            refine ih (some (trimS (cutL raw))) ?_ s hm
            intro c hc
            injection hc with hc
            subst hc
            exact yearHead_of_line hyl
      · rw [if_neg hyl] at hs
        rcases hc : cur with _ | c
        · rw [hc] at hs
          exact ih none (fun c hc => by cases hc) s hs
        · rw [hc] at hs
          dsimp only at hs
          by_cases hhit : hitB raw = true
          · rw [if_pos hhit] at hs
            rcases List.mem_singleton.mp hs with heq
            subst heq
            exact yearHead_clean (yearHead_append (hcur c hc) (trimS (cutL raw)))
          · rw [if_neg hhit] at hs
            refine ih (some (c ++ ' ' :: trimS (cutL raw))) ?_ s hs
            intro c' hc'
            injection hc' with hc'
            subst hc'
            exact yearHead_append (hcur c hc) (trimS (cutL raw))

theorem parseUnsorted_year (lines : List Str) :
    ∀ s ∈ parseUnsorted lines, yearLineMatch s = true :=
  puAux_year lines none (fun c hc => by cases hc)

/-- Every study stored in any bucket of the hierarchy matches the year pattern. -/
def taxoYear (t : Taxo) : Prop :=
  ∀ pc ∈ t, ∀ cl ∈ pc.2, ∀ s ∈ cl.2, yearLineMatch s = true

/-- The master-parser state invariant: hierarchy studies match the year pattern and
any open buffer has the `yearHead` shape. -/
def mInv (st : MState) : Prop :=
  taxoYear st.taxo ∧ ∀ c, st.cur = some c → yearHead c

theorem taxoYear_ensurePhase {t : Taxo} (h : taxoYear t) (ph : Str) :
    taxoYear (ensurePhase t ph) := by
  unfold ensurePhase
  by_cases hk : hasKey t ph = true
  · rw [if_pos hk]
    exact h
  · rw [if_neg hk]
    intro pc hpc
    rcases List.mem_append.mp hpc with hm | hm
    · exact h pc hm
    · rcases List.mem_singleton.mp hm with heq
      subst heq
      intro cl hcl
      cases hcl

theorem taxoYear_ensureCat {t : Taxo} (h : taxoYear t) (ph cat : Str) :
    taxoYear (ensureCat t ph cat) := by
  unfold ensureCat
  intro pc hpc
  refine updKey_forall
    (fun (pc : Str × List (Str × List Str)) => ∀ cl ∈ pc.2, ∀ s ∈ cl.2, yearLineMatch s = true)
    ph _ _ (taxoYear_ensurePhase h ph) ?_ pc hpc
  intro k' v hv
  by_cases hk : hasKey v cat = true
  · rw [if_pos hk]
    exact hv
  · rw [if_neg hk]
    intro cl hcl
    rcases List.mem_append.mp hcl with hm | hm
    · exact hv cl hm
    · rcases List.mem_singleton.mp hm with heq
      subst heq
      intro s hs
      cases hs

theorem taxoYear_appendStudy {t : Taxo} (h : taxoYear t) (ph cat s : Str)
    (hs : yearLineMatch s = true) : taxoYear (appendStudy t ph cat s) := by
  unfold appendStudy
  intro pc hpc
  refine updKey_forall
    (fun (pc : Str × List (Str × List Str)) =>
      ∀ cl ∈ pc.2, ∀ s' ∈ cl.2, yearLineMatch s' = true)
    ph _ _ h ?_ pc hpc
  intro k' v hv cl hcl
  refine updKey_forall
    (fun (cl : Str × List Str) => ∀ s' ∈ cl.2, yearLineMatch s' = true)
    cat _ _ hv ?_ cl hcl
  intro k'' v' hv' s' hs'
  rcases List.mem_append.mp hs' with hm | hm
  · exact hv' s' hm
  · rcases List.mem_singleton.mp hm with heq
    subst heq
    exact hs

theorem mCommit_inv {st : MState} (h : mInv st) : mInv (mCommit st) := by
  unfold mCommit
  rcases hcur : st.cur with _ | s
  · exact h
  · rcases hcp : st.cp with _ | ph
    · exact h
    · rcases hcc : st.cc with _ | cat
      · exact h
      · constructor
        · exact taxoYear_appendStudy (taxoYear_ensureCat h.1 ph cat) ph cat _
            (yearHead_clean (h.2 s hcur))
        · intro c hc
          simp at hc

theorem mStep_inv {st : MState} (h : mInv st) (line : Str) : mInv (mStep st line) := by
  unfold mStep
  by_cases hbl : (trimS line).isEmpty = true
  · rw [if_pos hbl]
    exact mCommit_inv h
  · rw [if_neg hbl]
    rcases hph : isPhaseHeader line with _ | ph
    · try dsimp only
      by_cases hyl : yearLineMatch line = true
      · rw [if_pos hyl]
        have h1 := mCommit_inv h
        unfold mInv
        try dsimp only
        constructor
        · rcases hcp : (mCommit st).cp with _ | p <;>
            rcases hcc : (mCommit st).cc with _ | c <;> try dsimp only
          · exact taxoYear_ensureCat (taxoYear_ensurePhase h1.1 _) _ _
          · exact taxoYear_ensurePhase h1.1 _
          · exact taxoYear_ensureCat h1.1 _ _
          · exact h1.1
        · intro c' hc'
          injection hc' with hc'
          subst hc'
          exact yearHead_of_line hyl
      · rw [if_neg hyl]
        try dsimp only
        by_cases hcat : (if (trimS line).getLast? == some ':' then trimS (trimS line).dropLast
            else trimS line).isEmpty = true
        · rw [if_pos hcat]
          exact h
        · rw [if_neg hcat]
          have h1 := mCommit_inv h
          unfold mInv
          try dsimp only
          constructor
          · rcases hcp : (mCommit st).cp with _ | p <;> try dsimp only
            · exact taxoYear_ensureCat (taxoYear_ensurePhase h1.1 _) _ _
            · exact taxoYear_ensureCat h1.1 _ _
          · intro c hc
            exact h1.2 c hc
    · try dsimp only
      have h1 := mCommit_inv h
      unfold mInv
      refine ⟨taxoYear_ensurePhase h1.1 ph, ?_⟩
      intro c hc
      exact h1.2 c hc

theorem parseMaster_year (lines : List Str) : taxoYear (parseMaster lines) := by
  unfold parseMaster
  have hinv : mInv (lines.foldl mStep ⟨[], none, none, none⟩) := by
    apply foldlInv mInv
    · constructor
      · intro pc hpc
        cases hpc
      · intro c hc
        cases hc
    · intro st line _ hst
      exact mStep_inv hst line
  exact (mCommit_inv hinv).1

theorem aud_row (tC : Taxo) (tB : Option Taxo) (us : List Str) (θ : ℚ) (bks : Buckets)
    (aud : List Row) (k : Nat) (u : Str)
    (hrun : categorizeWithMaster tC tB us θ = some (bks, aud)) (hk : us.get? k = some u) :
    aud.get? k = some (rowFor (buildC tC) (bFlat tB) θ u) := by
  rcases categorizeWM_ok tC tB us θ bks aud hrun with ⟨bks₀, hcore, _⟩
  rw [(categorizeCore_ok tC tB us θ bks₀ aud hcore).1, List.get?_map, hk]
  rfl

/-- Primary taxonomy fixture: one Phase I category `X` with a single 2023 study. -/
def c1tax : Taxo := [(("Phase I".data), [(("X".data), [("2023 abc".data)])])]

/-- Primary fixture with a single 2020 study. -/
def c2p : Taxo := [(("Phase I".data), [(("X".data), [("2020 aaa".data)])])]

/-- Secondary fixture longer than `c2p`, same bucket names. -/
def c2s : Taxo := [(("Phase I".data), [(("X".data), [("2020 aaa".data), ("2023 bbb".data)])])]

/-- Secondary fixture whose bucket names do not occur in `c2p`. -/
def c3s : Taxo :=
  [(("Phase II-IV".data), [(("Y".data), [("2020 aaa".data), ("2023 bbb".data)])])]

/-- Secondary fixture aligned with `c2p` positionally but carrying a different year. -/
def c4s : Taxo := [(("Phase I".data), [(("X".data), [("2023 aaa".data)])])]

/-- Primary fixture for the shortened-entry scenario. -/
def c9tax : Taxo := [(("Phase I".data), [(("X".data), [("2023 ab".data)])])]

/-- Candidate lines whose first line carries junk text followed by the sentinel. -/
def c8lines : List Str := [("junk ".data) ++ endMarker, ("2023 abc".data)]

/-- Claim C3: whenever `categorize_with_master` returns at all, it emits exactly one
audit row per candidate and exactly one bucket entry per candidate (amended: the
run can instead abort with a `KeyError` when the secondary fallback names a bucket
the primary never seeded — see the counterexample). -/
theorem claim_C3 (tC : Taxo) (tB : Option Taxo) (us : List Str) (θ : ℚ) (bks : Buckets)
    (aud : List Row) (hrun : categorizeWithMaster tC tB us θ = some (bks, aud)) :
    aud.length = us.length ∧ totalCount bks = us.length := by
  rcases categorizeWM_ok tC tB us θ bks aud hrun with ⟨bks₀, hcore, hsort⟩
  rcases categorizeCore_ok tC tB us θ bks₀ aud hcore with ⟨haud, hcount⟩
  constructor
  · rw [haud, List.length_map]
  · rw [hsort, totalCount_sortBuckets, hcount]

/-- Claim C3 counterexample: with a secondary taxonomy longer than the primary whose
extra entry names a bucket absent from the primary, the run aborts (`KeyError`) and
produces no audit log at all, although the candidate list is nonempty. -/
theorem claim_C3_cex : categorizeWithMaster c2p (some c3s) [("2023 bbb".data)] (4/5) = none := by
  decide

/-- Claim C3 witness: a successful two-master run on one candidate yields exactly one
audit row and one bucket entry. -/
theorem claim_C3_witness :
    categorizeWithMaster c2p (some c2s) [("2023 bbb".data)] (4/5) =
      some ([(("Phase I".data), [(("X".data), [(("2023".data), ("bbb".data))])]),
             (("Uncategorized".data), [(("Uncategorized".data), [])])],
            [(("2023 bbb".data), some ("2023 bbb".data), some ("Phase I".data),
              some ("X".data), 1)]) ∧
    ([(("2023 bbb".data), some ("2023 bbb".data), some ("Phase I".data),
        some ("X".data), (1 : ℚ))] : List Row).length = 1 ∧
    totalCount [(("Phase I".data), [(("X".data), [(("2023".data), ("bbb".data))])]),
      (("Uncategorized".data), [(("Uncategorized".data), [])])] = 1 :=
  ⟨by decide,
   (claim_C3 c2p (some c2s) [("2023 bbb".data)] (4/5)
     [(("Phase I".data), [(("X".data), [(("2023".data), ("bbb".data))])]),
      (("Uncategorized".data), [(("Uncategorized".data), [])])]
     [(("2023 bbb".data), some ("2023 bbb".data), some ("Phase I".data),
       some ("X".data), 1)] (by decide)).1,
   (claim_C3 c2p (some c2s) [("2023 bbb".data)] (4/5)
     [(("Phase I".data), [(("X".data), [(("2023".data), ("bbb".data))])]),
      (("Uncategorized".data), [(("Uncategorized".data), [])])]
     [(("2023 bbb".data), some ("2023 bbb".data), some ("Phase I".data),
       some ("X".data), 1)] (by decide)).2⟩

/-- Claim C5: both similarity scorers stay in `[0, 1]`; amended on the empty-string
clauses: the current `similarity_score` returns `0.0` whenever either normalized
input is empty — including both-empty, where the claim said `1.0` — while the
legacy `combined_similarity` returns `1.0` when both sides normalize to empty and
`0.4 · jaccard` (not necessarily `0.0`) when exactly one side normalizes to empty. -/
theorem claim_C5 (a b : Str) :
    (0 ≤ simScore a b ∧ simScore a b ≤ 1) ∧
    (0 ≤ combinedSimilarity a b ∧ combinedSimilarity a b ≤ 1) ∧
    (a = [] ∨ b = [] → simScore a b = 0) ∧
    (normalizeTextOld a = [] ∧ normalizeTextOld b = [] → combinedSimilarity a b = 1) ∧
    (normalizeTextOld a = [] ∧ normalizeTextOld b ≠ [] →
      combinedSimilarity a b = (2/5) * jaccardOld a b) := by
  refine ⟨⟨simScore_nonneg a b, simScore_le_one a b⟩,
    ⟨combined_nonneg a b, combined_le_one a b⟩,
    simScore_empty a b, ?_, ?_⟩
  · intro ⟨h1, h2⟩
    exact combined_both_empty a b h1 h2
  · intro ⟨h1, h2⟩
    exact combined_one_empty a b h1 h2

/-- Claim C5 counterexample: on two empty strings the current `similarity_score`
returns `0.0`, not the `1.0` the claim states for the empty-vs-empty case. -/
theorem claim_C5_cex : simScore ([] : Str) ([] : Str) = 0 ∧ (0 : ℚ) ≠ 1 :=
  ⟨by decide, by norm_num⟩

/-- Claim C5 witness: the legacy scorer on an empty string versus a pure stop-word
string returns `0.4 · jaccard = 0.4`, exhibiting the amended one-empty clause. -/
theorem claim_C5_witness :
    (normalizeTextOld ([] : Str) = [] ∧ normalizeTextOld ("the".data) ≠ []) ∧
    combinedSimilarity ([] : Str) ("the".data) = (2/5) * jaccardOld ([] : Str) ("the".data) :=
  ⟨by decide, (claim_C5 ([] : Str) ("the".data)).2.2.2.2 (by decide)⟩

/-- Claim C8 (code bug): the sentinel does not always terminate parsing.  When the
sentinel occurs on a non-blank, non-year line while no study buffer is open, the
`continue` in the junk-line branch skips the `hit_end` check, so a study after the
sentinel is still parsed; parsing the truncated sequence instead yields nothing. -/
theorem claim_C8 :
    parseUnsorted c8lines = [("2023 abc".data)] ∧
    truncAtSentinel c8lines = [("junk ".data)] ∧
    parseUnsorted (truncAtSentinel c8lines) = [] ∧
    parseUnsorted c8lines ≠ parseUnsorted (truncAtSentinel c8lines) := by
  refine ⟨by decide, by decide, by decide, by decide⟩

/-- Claim C9: in the two-master engine every audit row whose matched-master field is
empty carries score `0.0` — the positive below-threshold best score that was
computed is discarded. -/
theorem claim_C9 (tC : Taxo) (tB : Option Taxo) (us : List Str) (θ : ℚ) (bks : Buckets)
    (aud : List Row) (k : Nat) (u : Str) (row : Row)
    (hrun : categorizeWithMaster tC tB us θ = some (bks, aud))
    (hk : us.get? k = some u) (hr : aud.get? k = some row) (hm : row.2.1 = none) :
    row = (u, none, none, none, 0) := by
  rw [aud_row tC tB us θ bks aud k u hrun hk] at hr
  injection hr with hr
  subst hr
  unfold rowFor at hm ⊢
  rcases hdec : decideFor (buildC tC) (bFlat tB) θ u with _ | ⟨i, sc⟩ | ⟨i, sc⟩ | _
  · rfl
  · rw [hdec] at hm
    cases hm
  · rw [hdec] at hm
    try dsimp only at hm
    by_cases hi : i < (buildC tC).length
    · rw [if_pos hi] at hm
      cases hm
    · rw [if_neg hi] at hm
      cases hm
  · rfl

/-- Claim C9 witness: the candidate scores `11/20` against the only same-year entry,
below the `4/5` threshold; the audit row still records `0.0`. -/
theorem claim_C9_witness :
    bestOver ((buildC c9tax).map (fun e => (e.year, e.norm)))
      (extractYear ("2023 ab cd".data)) (normalizeAfterYear ("2023 ab cd".data)) =
      (some 0, 11/20) ∧
    (0 : ℚ) < 11/20 ∧
    categorizeWithMaster c9tax none [("2023 ab cd".data)] (4/5) =
      some ([(("Phase I".data), [(("X".data), [])]),
             (("Uncategorized".data),
              [(("Uncategorized".data), [(("2023".data), ("ab cd".data))])])],
            [(("2023 ab cd".data), none, none, none, 0)]) ∧
    (("2023 ab cd".data), (none : Option Str), (none : Option Str), (none : Option Str),
      (0 : ℚ)) = (("2023 ab cd".data), none, none, none, 0) :=
  ⟨by decide, by norm_num, by decide,
   claim_C9 c9tax none [("2023 ab cd".data)] (4/5)
     [(("Phase I".data), [(("X".data), [])]),
      (("Uncategorized".data),
       [(("Uncategorized".data), [(("2023".data), ("ab cd".data))])])]
     [(("2023 ab cd".data), none, none, none, 0)] 0 ("2023 ab cd".data)
     (("2023 ab cd".data), none, none, none, 0)
     (by decide) (by decide) (by decide) (by decide)⟩

/-- Claim C10: every study the candidate parser returns and every study the master
parser stores begins with a 4-digit year token, so year extraction never fails on
parsed studies. -/
theorem claim_C10 (lines mlines : List Str) :
    (∀ s ∈ parseUnsorted lines, yearLineMatch s = true ∧ (extractYear s).isSome = true) ∧
    (∀ pc ∈ parseMaster mlines, ∀ cl ∈ pc.2, ∀ s ∈ cl.2,
      yearLineMatch s = true ∧ (extractYear s).isSome = true) := by
  have hsome : ∀ s : Str, yearLineMatch s = true → (extractYear s).isSome = true := by
    intro s h
    unfold extractYear
    rw [if_pos h]
    rfl
  constructor
  · intro s hs
    exact ⟨parseUnsorted_year lines s hs, hsome s (parseUnsorted_year lines s hs)⟩
  · intro pc hpc cl hcl s hs
    exact ⟨parseMaster_year mlines pc hpc cl hcl s hs,
      hsome s (parseMaster_year mlines pc hpc cl hcl s hs)⟩

/-- Claim C10 witness: a parsed candidate and a parsed master study both start with
their 4-digit year. -/
theorem claim_C10_witness :
    ("2023 abc x".data) ∈ parseUnsorted [("2023 abc".data), ("x".data)] ∧
    (yearLineMatch ("2023 abc x".data) = true ∧
      (extractYear ("2023 abc x".data)).isSome = true) ∧
    (yearLineMatch ("2024 s1".data) = true ∧ (extractYear ("2024 s1".data)).isSome = true) :=
  ⟨by decide,
   (claim_C10 [("2023 abc".data), ("x".data)] [("PHASE I".data), ("Cat".data), ("2024 s1".data)]).1
     ("2023 abc x".data) (by decide),
   (claim_C10 [("2023 abc".data), ("x".data)] [("PHASE I".data), ("Cat".data), ("2024 s1".data)]).2
     (("Phase I".data), [(("Cat".data), [("2024 s1".data)])]) (by decide)
     (("Cat".data), [("2024 s1".data)]) (by decide) ("2024 s1".data) (by decide)⟩

/-- Fixture whose single category holds a study with no normalizable after-year text
in common with `"2023 ..."`. -/
def c6tax : Taxo := [(("Phase I".data), [(("X".data), [("2023 zzz".data)])])]

/-- Primary fixture for the in-bounds secondary-hit scenario. -/
def c2wp : Taxo := [(("Phase I".data), [(("X".data), [("2020 aaa".data), ("2023 ccc".data)])])]

/-- Secondary fixture aligned with `c2wp`, same length, different 2023 wording. -/
def c2ws : Taxo := [(("Phase I".data), [(("X".data), [("2020 aaa".data), ("2023 bbb".data)])])]

/-- Fixture with two studies of different years in one category. -/
def c7tax : Taxo := [(("Phase I".data), [(("X".data), [("2020 a".data), ("2023 b".data)])])]

/-- Claim C1 (amended): the engine has no exact-match fast path; an exactly matching
candidate is found by the year-scoped fuzzy pass with score `1.0` and is placed in
the matching entry's bucket — but only because `1.0` clears the threshold, so this
holds only for `threshold ≤ 1`, not for every threshold value. -/
theorem claim_C1 (tC : Taxo) (tB : Option Taxo) (us : List Str) (θ : ℚ) (bks : Buckets)
    (aud : List Row) (k : Nat) (u : Str) (y : Str)
    (hrun : categorizeWithMaster tC tB us θ = some (bks, aud))
    (hk : us.get? k = some u)
    (hy : extractYear u = some y)
    (hnorm : normalizeAfterYear u ≠ [])
    (hex : ∃ e ∈ buildC tC, e.year = some y ∧ e.norm = normalizeAfterYear u)
    (hθ : θ ≤ 1) :
    ∃ i e, (buildC tC).get? i = some e ∧ e.year = some y ∧
      e.norm = normalizeAfterYear u ∧
      decideFor (buildC tC) (bFlat tB) θ u = MDecision.hit1 i 1 ∧
      aud.get? k = some (u, some e.line, some e.phase, some e.cat, 1) ∧
      placeFor (buildC tC) (bFlat tB) θ u =
        ((e.phase, e.cat), (orStr e.year (orStr (extractYear u) []), e.after)) := by
  have hafter : trimS (stripLeadingYear u) ≠ [] := fun hc =>
    hnorm (normalizeAfterYear_nil_of_after hc)
  rcases hex with ⟨e₀, hmem, hy₀, hn₀⟩
  rcases List.mem_iff_get?.mp hmem with ⟨i₀, hi₀⟩
  have henum : (i₀, (e₀.year, e₀.norm)) ∈
      ((buildC tC).map (fun e => (e.year, e.norm))).enum := by
    rw [List.mem_enum_iff_get?, List.get?_map, hi₀]
    rfl
  have hb := bestOver_ge ((buildC tC).map (fun e => (e.year, e.norm))) (extractYear u)
    (normalizeAfterYear u) i₀ (e₀.year, e₀.norm) henum ⟨y, hy, hy₀⟩
  have hsim : simScore (normalizeAfterYear u) (e₀.year, e₀.norm).2 = 1 := by
    show simScore (normalizeAfterYear u) e₀.norm = 1
    rw [hn₀]
    exact simScore_self (normalizeAfterYear u) hnorm (tokFin_norm_ne hnorm)
  rw [hsim] at hb
  have hle := bestOver_le_one ((buildC tC).map (fun e => (e.year, e.norm)))
    (extractYear u) (normalizeAfterYear u)
  have hp2 : (bestOver ((buildC tC).map (fun e => (e.year, e.norm))) (extractYear u)
      (normalizeAfterYear u)).2 = 1 := le_antisymm hle hb
  rcases hp1 : (bestOver ((buildC tC).map (fun e => (e.year, e.norm))) (extractYear u)
      (normalizeAfterYear u)).1 with _ | i
  · have h0 := bestOver_none ((buildC tC).map (fun e => (e.year, e.norm))) (extractYear u)
      (normalizeAfterYear u) hp1
    rw [h0] at hp2
    norm_num at hp2
  · rcases bestOver_win_map (fun e => (e.year, e.norm)) (buildC tC) (extractYear u)
      (normalizeAfterYear u) i hp1 with ⟨e, hge, helig, hsc⟩
    have hne : e.norm = normalizeAfterYear u := by
      have h1 : simScore (normalizeAfterYear u) e.norm = 1 := by
        rw [hp2] at hsc
        exact hsc.symm
      exact (simScore_one_imp (normalizeAfterYear u) e.norm hnorm h1).symm
    rcases helig with ⟨y', h1, h2⟩
    rw [hy] at h1
    injection h1 with h1
    subst h1
    have hyr : e.year = some y := h2
    have hdec := decideFor_hit1_intro (buildC tC) (bFlat tB) θ u i 1 hafter
      (Prod.ext hp1 hp2) hθ
    have hrow := aud_row tC tB us θ bks aud k u hrun hk
    refine ⟨i, e, hge, hyr, hne, hdec, ?_, ?_⟩
    · rw [hrow]
      have hr : rowFor (buildC tC) (bFlat tB) θ u =
          (u, some e.line, some e.phase, some e.cat, 1) := by
        unfold rowFor
        rw [hdec]
        try dsimp only
        rw [cAt_get hge]
      rw [hr]
    · unfold placeFor
      try dsimp only
      rw [hdec]
      try dsimp only
      rw [cAt_get hge]

/-- Claim C1 counterexample: with threshold `1.01` an exactly matching candidate is
not matched at all — the audit row records no match and score `0.0`, and the
candidate lands in `Uncategorized`, so the exact match does not bypass the
threshold comparison. -/
theorem claim_C1_cex :
    categorizeWithMaster c1tax none [("2023 abc".data)] (101/100) =
      some ([(("Phase I".data), [(("X".data), [])]),
             (("Uncategorized".data),
              [(("Uncategorized".data), [(("2023".data), ("abc".data))])])],
            [(("2023 abc".data), none, none, none, 0)]) ∧
    (∃ e ∈ buildC c1tax, e.year = extractYear ("2023 abc".data) ∧
      e.norm = normalizeAfterYear ("2023 abc".data)) := by
  refine ⟨by decide, by decide⟩

/-- Claim C1 witness: at threshold exactly `1` the exact match is found with score
`1` and placed in its entry's bucket. -/
theorem claim_C1_witness :
    ∃ i e, (buildC c1tax).get? i = some e ∧ e.year = some ("2023".data) ∧
      e.norm = normalizeAfterYear ("2023 abc".data) ∧
      decideFor (buildC c1tax) (bFlat none) 1 ("2023 abc".data) = MDecision.hit1 i 1 ∧
      ([(("2023 abc".data), some ("2023 abc".data), some ("Phase I".data),
        some ("X".data), (1 : ℚ))] : List Row).get? 0 =
        some (("2023 abc".data), some e.line, some e.phase, some e.cat, 1) ∧
      placeFor (buildC c1tax) (bFlat none) 1 ("2023 abc".data) =
        ((e.phase, e.cat),
         (orStr e.year (orStr (extractYear ("2023 abc".data)) []), e.after)) :=
  claim_C1 c1tax none [("2023 abc".data)] 1
    [(("Phase I".data), [(("X".data), [(("2023".data), ("abc".data))])]),
     (("Uncategorized".data), [(("Uncategorized".data), [])])]
    [(("2023 abc".data), some ("2023 abc".data), some ("Phase I".data),
      some ("X".data), 1)]
    0 ("2023 abc".data) ("2023".data)
    (by decide) (by decide) (by decide) (by decide) (by decide) (le_refl 1)

/-- Claim C2 (amended): on a secondary-pass hit the output is primary-sourced only
when the winning flattened index is in range of the primary flattening; then both
the audit row and the placement take wording, bucket and year from the primary
entry at that index. (When the index is out of range the secondary entry itself
supplies the output — see the counterexample.) -/
theorem claim_C2 (tC tB : Taxo) (us : List Str) (θ : ℚ) (bks : Buckets)
    (aud : List Row) (k : Nat) (u : Str) (i : Nat) (sc : ℚ)
    (hrun : categorizeWithMaster tC (some tB) us θ = some (bks, aud))
    (hk : us.get? k = some u)
    (hdec : decideFor (buildC tC) (bFlat (some tB)) θ u = MDecision.hit2 i sc)
    (hi : i < (buildC tC).length) :
    aud.get? k = some (u, some (cAt (buildC tC) i).line, some (cAt (buildC tC) i).phase,
      some (cAt (buildC tC) i).cat, sc) ∧
    placeFor (buildC tC) (bFlat (some tB)) θ u =
      (((cAt (buildC tC) i).phase, (cAt (buildC tC) i).cat),
       (orStr (cAt (buildC tC) i).year (orStr (extractYear u) []),
        (cAt (buildC tC) i).after)) := by
  have hrow := aud_row tC (some tB) us θ bks aud k u hrun hk
  constructor
  · rw [hrow]
    have hr : rowFor (buildC tC) (bFlat (some tB)) θ u =
        (u, some (cAt (buildC tC) i).line, some (cAt (buildC tC) i).phase,
         some (cAt (buildC tC) i).cat, sc) := by
      unfold rowFor
      rw [hdec]
      try dsimp only
      rw [if_pos hi]
    rw [hr]
  · unfold placeFor
    try dsimp only
    rw [hdec]
    try dsimp only
    rw [if_pos hi]

/-- Claim C2 counterexample: when the secondary taxonomy is longer than the primary,
a candidate matched by the extra secondary entry is rendered with the secondary
taxonomy's wording — text that appears nowhere in the primary. -/
theorem claim_C2_cex :
    categorizeWithMaster c2p (some c2s) [("2023 bbb".data)] (4/5) =
      some ([(("Phase I".data), [(("X".data), [(("2023".data), ("bbb".data))])]),
             (("Uncategorized".data), [(("Uncategorized".data), [])])],
            [(("2023 bbb".data), some ("2023 bbb".data), some ("Phase I".data),
              some ("X".data), 1)]) ∧
    (∀ e ∈ buildC c2p, e.after ≠ ("bbb".data)) ∧
    (∀ e ∈ buildC c2p, e.line ≠ ("2023 bbb".data)) := by
  refine ⟨by decide, by decide, by decide⟩

/-- Claim C2 witness: an in-range secondary hit (index `1`, primary length `2`)
renders the primary wording `"2023 ccc"`, not the secondary `"2023 bbb"`. -/
theorem claim_C2_witness :
    ([(("2023 bbb".data), some ("2023 ccc".data), some ("Phase I".data),
      some ("X".data), (1 : ℚ))] : List Row).get? 0 =
      some (("2023 bbb".data), some (cAt (buildC c2wp) 1).line,
        some (cAt (buildC c2wp) 1).phase, some (cAt (buildC c2wp) 1).cat, 1) ∧
    placeFor (buildC c2wp) (bFlat (some c2ws)) (4/5) ("2023 bbb".data) =
      (((cAt (buildC c2wp) 1).phase, (cAt (buildC c2wp) 1).cat),
       (orStr (cAt (buildC c2wp) 1).year (orStr (extractYear ("2023 bbb".data)) []),
        (cAt (buildC c2wp) 1).after)) :=
  claim_C2 c2wp c2ws [("2023 bbb".data)] (4/5)
    [(("Phase I".data), [(("X".data), [(("2023".data), ("ccc".data))])]),
     (("Uncategorized".data), [(("Uncategorized".data), [])])]
    [(("2023 bbb".data), some ("2023 ccc".data), some ("Phase I".data),
      some ("X".data), 1)]
    0 ("2023 bbb".data) 1 1 (by decide) (by decide) (by decide) (by decide)

/-- Claim C4 (amended): a fuzzy match is always with a scored entry whose year
equals the candidate's year — but on an in-range secondary hit the scored entry is
the secondary one, while the rendered entry is the primary entry at the same
index, whose year may differ (see the counterexample). -/
theorem claim_C4 (tC : Taxo) (tB : Option Taxo) (us : List Str) (θ : ℚ) (bks : Buckets)
    (aud : List Row) (k : Nat) (u : Str) (row : Row) (m : Str)
    (hrun : categorizeWithMaster tC tB us θ = some (bks, aud))
    (hk : us.get? k = some u) (hr : aud.get? k = some row) (hm : row.2.1 = some m) :
    ∃ y, extractYear u = some y ∧
      ((∃ i sc e, decideFor (buildC tC) (bFlat tB) θ u = MDecision.hit1 i sc ∧
        (buildC tC).get? i = some e ∧ e.year = some y ∧ m = e.line) ∨
       (∃ i sc e, decideFor (buildC tC) (bFlat tB) θ u = MDecision.hit2 i sc ∧
        (bFlat tB).get? i = some e ∧ e.year = some y)) := by
  rw [aud_row tC tB us θ bks aud k u hrun hk] at hr
  injection hr with hr
  subst hr
  unfold rowFor at hm
  rcases hdec : decideFor (buildC tC) (bFlat tB) θ u with _ | ⟨i, sc⟩ | ⟨i, sc⟩ | _
  · rw [hdec] at hm
    cases hm
  · rw [hdec] at hm
    try dsimp only at hm
    injection hm with hm
    rcases decideFor_hit1_inv (buildC tC) (bFlat tB) θ u i sc hdec with ⟨_, hbo, _⟩
    have hp1 : (bestOver ((buildC tC).map (fun e => (e.year, e.norm))) (extractYear u)
        (normalizeAfterYear u)).1 = some i := by
      rw [hbo]
    rcases bestOver_win_map (fun e => (e.year, e.norm)) (buildC tC) (extractYear u)
      (normalizeAfterYear u) i hp1 with ⟨e, hge, helig, _⟩
    rcases helig with ⟨y, h1, h2⟩
    refine ⟨y, h1, Or.inl ⟨i, sc, e, rfl, hge, h2, ?_⟩⟩
    rw [← hm, cAt_get hge]
  · rcases decideFor_hit2_inv (buildC tC) (bFlat tB) θ u i sc hdec with ⟨_, _, hbo, _⟩
    have hp1 : (bestOver ((bFlat tB).map (fun e => (e.year, e.norm))) (extractYear u)
        (normalizeAfterYear u)).1 = some i := by
      rw [hbo]
    rcases bestOver_win_map (fun e => (e.year, e.norm)) (bFlat tB) (extractYear u)
      (normalizeAfterYear u) i hp1 with ⟨e, hge, helig, _⟩
    rcases helig with ⟨y, h1, h2⟩
    exact ⟨y, h1, Or.inr ⟨i, sc, e, rfl, hge, h2⟩⟩
  · rw [hdec] at hm
    cases hm

/-- Claim C4 counterexample: the candidate `"2023 aaa"` is matched through the
secondary pass, and everything rendered for it — the audit's matched-master text
and the bucket pair — comes from the primary entry `"2020 aaa"`, whose year `2020`
differs from the candidate's year `2023`. -/
theorem claim_C4_cex :
    categorizeWithMaster c2p (some c4s) [("2023 aaa".data)] (4/5) =
      some ([(("Phase I".data), [(("X".data), [(("2020".data), ("aaa".data))])]),
             (("Uncategorized".data), [(("Uncategorized".data), [])])],
            [(("2023 aaa".data), some ("2020 aaa".data), some ("Phase I".data),
              some ("X".data), 1)]) ∧
    extractYear ("2023 aaa".data) = some ("2023".data) ∧
    extractYear ("2020 aaa".data) = some ("2020".data) ∧
    (("2020".data) : Str) ≠ ("2023".data) := by
  refine ⟨by decide, by decide, by decide, by decide⟩

/-- Claim C4 witness: a primary-pass match carries the matched entry's year equal to
the candidate's year `2023`. -/
theorem claim_C4_witness :
    ∃ y, extractYear ("2023 abc".data) = some y ∧
      ((∃ i sc e, decideFor (buildC c1tax) (bFlat none) (4/5) ("2023 abc".data) =
          MDecision.hit1 i sc ∧
        (buildC c1tax).get? i = some e ∧ e.year = some y ∧ ("2023 abc".data) = e.line) ∨
       (∃ i sc e, decideFor (buildC c1tax) (bFlat none) (4/5) ("2023 abc".data) =
          MDecision.hit2 i sc ∧
        (bFlat (none : Option Taxo)).get? i = some e ∧ e.year = some y)) :=
  claim_C4 c1tax none [("2023 abc".data)] (4/5)
    [(("Phase I".data), [(("X".data), [(("2023".data), ("abc".data))])]),
     (("Uncategorized".data), [(("Uncategorized".data), [])])]
    [(("2023 abc".data), some ("2023 abc".data), some ("Phase I".data),
      some ("X".data), 1)]
    0 ("2023 abc".data)
    (("2023 abc".data), some ("2023 abc".data), some ("Phase I".data),
      some ("X".data), 1)
    ("2023 abc".data) (by decide) (by decide) (by decide) (by decide)

/-- Claim C6 (amended): a candidate whose after-year text normalizes to empty is
recorded as unmatched with score `0.0` and placed in `Uncategorized/Uncategorized`;
but the no-scoring short-circuit is guarded by the raw stripped after-year text
being empty, not the normalized text, so a candidate like `"2023 ..."` still
enters the fuzzy passes (they merely cannot match an empty normalization). -/
theorem claim_C6 :
    (∀ (tC : Taxo) (tB : Option Taxo) (us : List Str) (θ : ℚ) (bks : Buckets)
      (aud : List Row) (k : Nat) (u : Str),
      categorizeWithMaster tC tB us θ = some (bks, aud) → us.get? k = some u →
      normalizeAfterYear u = [] →
      aud.get? k = some (u, none, none, none, 0) ∧
      placeFor (buildC tC) (bFlat tB) θ u =
        (uncatKey, (orStr (extractYear u) [], trimS (stripLeadingYear u)))) ∧
    (∀ (C : List CEntry) (B : List BEntry) (θ : ℚ) (u : Str),
      decideFor C B θ u = MDecision.emptyU ↔ trimS (stripLeadingYear u) = []) := by
  constructor
  · intro tC tB us θ bks aud k u hrun hk hnorm
    have hrow := aud_row tC tB us θ bks aud k u hrun hk
    have hdec := decideFor_norm_nil (buildC tC) (bFlat tB) θ u hnorm
    by_cases hg : (trimS (stripLeadingYear u)).isEmpty = true
    · rw [if_pos hg] at hdec
      constructor
      · rw [hrow]
        have hr : rowFor (buildC tC) (bFlat tB) θ u = (u, none, none, none, 0) := by
          unfold rowFor
          rw [hdec]
        rw [hr]
      · unfold placeFor
        try dsimp only
        rw [hdec]
    · rw [if_neg hg] at hdec
      constructor
      · rw [hrow]
        have hr : rowFor (buildC tC) (bFlat tB) θ u = (u, none, none, none, 0) := by
          unfold rowFor
          rw [hdec]
        rw [hr]
      · unfold placeFor
        try dsimp only
        rw [hdec]
  · intro C B θ u
    exact decideFor_emptyU_iff C B θ u

/-- Claim C6 counterexample: `"2023 ..."` has a non-blank raw after-year text that
normalizes to empty; the guard tests the raw text, so the control flow reaches the
fuzzy passes and the decision is `nomatch`, not the empty-candidate short-circuit. -/
theorem claim_C6_cex :
    normalizeAfterYear ("2023 ...".data) = [] ∧
    trimS (stripLeadingYear ("2023 ...".data)) ≠ [] ∧
    decideFor (buildC c6tax) [] (4/5) ("2023 ...".data) = MDecision.nomatch ∧
    decideFor (buildC c6tax) [] (4/5) ("2023 ...".data) ≠ MDecision.emptyU := by
  refine ⟨by decide, by decide, by decide, by decide⟩

/-- Claim C6 witness: the norm-empty candidate `"2023 ..."` is recorded unmatched
with score `0.0` and routed to `Uncategorized/Uncategorized`, and the emptiness
short-circuit holds exactly for blank raw after-year text. -/
theorem claim_C6_witness :
    (([(("2023 ...".data), none, none, none, (0 : ℚ))] : List Row).get? 0 =
      some (("2023 ...".data), none, none, none, 0) ∧
     placeFor (buildC c6tax) (bFlat none) (4/5) ("2023 ...".data) =
       (uncatKey, (orStr (extractYear ("2023 ...".data)) [],
         trimS (stripLeadingYear ("2023 ...".data))))) ∧
    (decideFor (buildC c6tax) [] (4/5) ("2023 ...".data) = MDecision.emptyU ↔
      trimS (stripLeadingYear ("2023 ...".data)) = []) :=
  ⟨claim_C6.1 c6tax none [("2023 ...".data)] (4/5)
    [(("Phase I".data), [(("X".data), [])]),
     (("Uncategorized".data),
      [(("Uncategorized".data), [(("2023".data), ("...".data))])])]
    [(("2023 ...".data), none, none, none, 0)]
    0 ("2023 ...".data) (by decide) (by decide) (by decide),
   claim_C6.2 (buildC c6tax) [] (4/5) ("2023 ...".data)⟩

/-- Claim C7: after the post-pass, every bucket is sorted by integer year descending
(absent or non-integer years count as `-1`), and the sort is stable: the sorted
bucket agrees with the arrival-order bucket on the subsequence of every fixed year
key. -/
theorem claim_C7 (tC : Taxo) (tB : Option Taxo) (us : List Str) (θ : ℚ) (bks : Buckets)
    (aud : List Row) (hrun : categorizeWithMaster tC tB us θ = some (bks, aud)) :
    (∀ pc ∈ bks, ∀ cl ∈ pc.2, bucketSortedDesc cl.2) ∧
    (∃ bks₀, categorizeCore tC tB us θ = some (bks₀, aud) ∧ bks = sortBuckets bks₀ ∧
      List.Forall₂ (fun pc pc₀ => pc.1 = pc₀.1 ∧
        List.Forall₂ (fun cl cl₀ => cl.1 = cl₀.1 ∧ ∀ j : Int,
          cl.2.filter (fun q => yearAsInt q.1 == j) =
            cl₀.2.filter (fun q => yearAsInt q.1 == j)) pc.2 pc₀.2) bks bks₀) := by
  rcases categorizeWM_ok tC tB us θ bks aud hrun with ⟨bks₀, hcore, hsort⟩
  subst hsort
  constructor
  · intro pc hpc cl hcl
    rcases List.mem_map.mp hpc with ⟨pc₀, hpc₀, rfl⟩
    dsimp only at hcl
    rcases List.mem_map.mp hcl with ⟨cl₀, hcl₀, rfl⟩
    exact sortYearDesc_chain cl₀.2
  · refine ⟨bks₀, hcore, rfl, ?_⟩
    have hstab : ∀ (L : Buckets),
        List.Forall₂ (fun pc pc₀ => pc.1 = pc₀.1 ∧
          List.Forall₂ (fun cl cl₀ => cl.1 = cl₀.1 ∧ ∀ j : Int,
            cl.2.filter (fun q => yearAsInt q.1 == j) =
              cl₀.2.filter (fun q => yearAsInt q.1 == j)) pc.2 pc₀.2)
          (sortBuckets L) L := by
      intro L
      induction L with
      | nil => exact List.Forall₂.nil
      | cons pc rest ih =>
        refine List.Forall₂.cons ⟨rfl, ?_⟩ ih
        show List.Forall₂ _ (pc.2.map (fun cs => (cs.1, sortYearDesc cs.2))) pc.2
        induction pc.2 with
        | nil => exact List.Forall₂.nil
        | cons cl cls ih2 =>
          exact List.Forall₂.cons ⟨rfl, fun j => sortYearDesc_filter j cl.2⟩ ih2
    exact hstab bks₀

/-- Claim C7 witness: a bucket that receives a 2020 study before a 2023 study is
rendered in descending year order, and per-year filtering agrees with arrival
order. -/
theorem claim_C7_witness :
    (∀ pc ∈ ([(("Phase I".data),
        [(("X".data), [(("2023".data), ("b".data)), (("2020".data), ("a".data))])]),
       (("Uncategorized".data), [(("Uncategorized".data), [])])] : Buckets),
      ∀ cl ∈ pc.2, bucketSortedDesc cl.2) ∧
    (∃ bks₀, categorizeCore c7tax none [("2020 a".data), ("2023 b".data)] (4/5) =
        some (bks₀,
          [(("2020 a".data), some ("2020 a".data), some ("Phase I".data),
            some ("X".data), 1),
           (("2023 b".data), some ("2023 b".data), some ("Phase I".data),
            some ("X".data), 1)]) ∧
      ([(("Phase I".data),
         [(("X".data), [(("2023".data), ("b".data)), (("2020".data), ("a".data))])]),
        (("Uncategorized".data), [(("Uncategorized".data), [])])] : Buckets) =
        sortBuckets bks₀ ∧
      List.Forall₂ (fun pc pc₀ => pc.1 = pc₀.1 ∧
        List.Forall₂ (fun cl cl₀ => cl.1 = cl₀.1 ∧ ∀ j : Int,
          cl.2.filter (fun q => yearAsInt q.1 == j) =
            cl₀.2.filter (fun q => yearAsInt q.1 == j)) pc.2 pc₀.2)
        ([(("Phase I".data),
           [(("X".data), [(("2023".data), ("b".data)), (("2020".data), ("a".data))])]),
          (("Uncategorized".data), [(("Uncategorized".data), [])])] : Buckets) bks₀) :=
  claim_C7 c7tax none [("2020 a".data), ("2023 b".data)] (4/5)
    [(("Phase I".data),
      [(("X".data), [(("2023".data), ("b".data)), (("2020".data), ("a".data))])]),
     (("Uncategorized".data), [(("Uncategorized".data), [])])]
    [(("2020 a".data), some ("2020 a".data), some ("Phase I".data), some ("X".data), 1),
     (("2023 b".data), some ("2023 b".data), some ("Phase I".data), some ("X".data), 1)]
    (by decide)

end CVProc
